import Mathlib

/-!
The program atrun: run jobs queued by at.

A shallow embedding of `libexec/atrun/atrun.c` (`main`, `run_file`, `perr`).

Conventions of the embedding.

* C strings (file names, user names) are lists of characters, one per byte; the
  end of the list stands for the terminating NUL.
* `unsigned long` and `time_t` are 64 bits wide (an LP64 platform); a conversion
  stores its value modulo `2 ^ 64`.  With at most eight hexadecimal digits read
  by `%8lx`, the product `ctm * 60` never leaves the range of `time_t`.
* `double` values are either a finite value, given by the rational number it
  denotes, an infinity, or a NaN; only their comparisons are used by the program.
* A process is described by the list of operations it performs, in order.  The
  outcome of every library or system call is supplied by an environment record,
  so that every theorem quantifies over all outcomes.
-/

namespace Atrun

/-! ## Constants of the system headers -/

/-- Mask of the file-type bits of `st_mode` (`S_IFMT`). -/
def S_IFMT : Nat := 0o170000

/-- File-type bits of a regular file (`S_IFREG`). -/
def S_IFREG : Nat := 0o100000

/-- Owner-read permission bit (`S_IRUSR`). -/
def S_IRUSR : Nat := 0o400

/-- Owner-write permission bit (`S_IWUSR`). -/
def S_IWUSR : Nat := 0o200

/-- Owner-execute permission bit (`S_IXUSR`). -/
def S_IXUSR : Nat := 0o100

/-- The test `S_ISREG(m)`. -/
def S_ISREG (m : Nat) : Bool := (m &&& S_IFMT) == S_IFREG

/-- Exit status `EXIT_SUCCESS`. -/
def EXIT_SUCCESS : Nat := 0

/-- Exit status `EXIT_FAILURE`. -/
def EXIT_FAILURE : Nat := 1

/-- Descriptor number of standard input. -/
def STDIN_FILENO : Nat := 0

/-- Descriptor number of standard output. -/
def STDOUT_FILENO : Nat := 1

/-- Descriptor number of standard error. -/
def STDERR_FILENO : Nat := 2

/-- The macro `ATJOB_DIR`. -/
def ATJOB_DIR : List Char := "/usr/spool/atjobs/".toList

/-- The macro `ATSPOOL_DIR`. -/
def ATSPOOL_DIR : List Char := "/usr/spool/atspool/".toList

/-! ## Character classes of `<ctype.h>` in the C locale -/

/-- The test `isspace(c)`: blank, tab, newline, vertical tab, form feed, return. -/
def isspace (c : Char) : Bool :=
  c.toNat == 32 || (9 ≤ c.toNat && c.toNat ≤ 13)

/-- The test `isupper(c)`. -/
def isupper (c : Char) : Bool := 65 ≤ c.toNat && c.toNat ≤ 90

/-- The test `islower(c)`. -/
def islower (c : Char) : Bool := 97 ≤ c.toNat && c.toNat ≤ 122

/-- The function `tolower(c)`, on character codes. -/
def tolower (c : Char) : Int := if isupper c then (c.toNat : Int) + 32 else c.toNat

/-- Value of a hexadecimal digit, if the character is one. -/
def hexval (c : Char) : Option Nat :=
  if 48 ≤ c.toNat ∧ c.toNat ≤ 57 then some (c.toNat - 48)
  else if 97 ≤ c.toNat ∧ c.toNat ≤ 102 then some (c.toNat - 87)
  else if 65 ≤ c.toNat ∧ c.toNat ≤ 70 then some (c.toNat - 55)
  else none

/-- The test `isxdigit(c)`. -/
def isxdigit (c : Char) : Bool := (hexval c).isSome

/-- Value of a decimal digit, if the character is one. -/
def decval (c : Char) : Option Nat :=
  if 48 ≤ c.toNat ∧ c.toNat ≤ 57 then some (c.toNat - 48) else none

/-! ## Machine integers -/

/-- Number of values of an `unsigned long`. -/
def ULONG_MOD : Nat := 18446744073709551616

/-- The conversion of an `unsigned long` to `time_t` (two's complement). -/
def to_time_t (u : Nat) : Int :=
  if u % ULONG_MOD < 9223372036854775808 then ((u % ULONG_MOD : Nat) : Int)
  else ((u % ULONG_MOD : Nat) : Int) - 18446744073709551616

/-- A `time_t` result reduced to its 64 bits. -/
def wrap_time_t (i : Int) : Int := to_time_t (i % 18446744073709551616).toNat

/-- The expression `(time_t) ctm*60` of `main`. -/
def run_time_of (ctm : Nat) : Int := wrap_time_t (to_time_t ctm * 60)

/-! ## `strcmp`, `strncpy` -/

/-- The function `strcmp`: difference of the first two bytes that differ, the end of a
string counting as the byte 0. -/
def strcmp : List Char → List Char → Int
  | [], [] => 0
  | [], b :: _ => - (b.toNat : Int)
  | a :: _, [] => (a.toNat : Int)
  | a :: as, b :: bs => if a = b then strcmp as bs else (a.toNat : Int) - (b.toNat : Int)

/-- Size of the array `batch_name` of `main`: fourteen characters and the NUL. -/
def BATCH_NAME_SIZE : Nat := 15

/-- The call `strncpy(batch_name, src, sizeof(batch_name))`, read back as a string.
A source of fifteen bytes or more leaves the array without a terminating NUL; the
program then reads past the array, and the embedding keeps the fifteen bytes copied. -/
def strncpy_batch (src : List Char) : List Char := src.take BATCH_NAME_SIZE

/-! ## The conversions of `sscanf(d_name, "%c%8lx", &queue, &ctm)`

The library function is described as ISO C describes the two conversions. -/

/-- Value of a run of hexadecimal digits, most significant first. -/
def hexnum (acc : Nat) : List Char → Nat
  | [] => acc
  | c :: cs => hexnum (acc * 16 + (hexval c).getD 0) cs

/-- The longest leading run of hexadecimal digits. -/
def hexrun (cs : List Char) : List Char := cs.takeWhile isxdigit

/-- Drops a leading `0x` or `0X` that is followed by a hexadecimal digit. -/
def strip0x : List Char → List Char
  | c0 :: cx :: d :: rest =>
    if c0.toNat = 48 ∧ (cx.toNat = 120 ∨ cx.toNat = 88) ∧ isxdigit d then d :: rest
    else c0 :: cx :: d :: rest
  | cs => cs

/-- The input field of `%8lx`: white space is skipped, then at most eight characters
are read. -/
def scan_field (inp : List Char) : List Char := (inp.dropWhile isspace).take 8

/-- The field starts with a minus sign. -/
def has_minus (field : List Char) : Bool := field.head?.map Char.toNat == some 45

/-- The field starts with a plus sign. -/
def has_plus (field : List Char) : Bool := field.head?.map Char.toNat == some 43

/-- The digits of the field: after an optional sign and an optional `0x`, the
longest run of hexadecimal digits. -/
def scan_digits (field : List Char) : List Char :=
  hexrun (strip0x (if has_minus field || has_plus field then field.tail else field))

/-- The conversion `%8lx` applied to the input that follows the queue character:
white space is skipped, then at most eight characters are read as an optionally
signed hexadecimal integer with an optional `0x`; the result is stored in an
`unsigned long`, a minus sign negating it modulo `2 ^ 64`.  The result is `none`
when no digit is found. -/
def scan_8lx (inp : List Char) : Option Nat :=
  if scan_digits (scan_field inp) = [] then none
  else if has_minus (scan_field inp) then
    some ((ULONG_MOD - hexnum 0 (scan_digits (scan_field inp)) % ULONG_MOD) % ULONG_MOD)
  else some (hexnum 0 (scan_digits (scan_field inp)) % ULONG_MOD)

/-- The call `sscanf(name, "%c%8lx", &queue, &ctm)`: `some (queue, ctm)` when it
returns 2. `%c` takes the first byte, whatever it is. -/
def sscanf_c_8lx (name : List Char) : Option (Char × Nat) :=
  match name with
  | [] => none
  | q :: rest =>
    match scan_8lx rest with
    | none => none
    | some ctm => some (q, ctm)

/-! ## Values of type `double` -/

/-- A value of type `double`: finite (the rational it denotes), infinite, or NaN. -/
inductive Dbl where
  | fin (q : ℚ)
  | pinf
  | ninf
  | nan
deriving DecidableEq

/-- The comparison `a < b` of two doubles. -/
def Dbl.lt : Dbl → Dbl → Bool
  | Dbl.fin a, Dbl.fin b => decide (a < b)
  | Dbl.fin _, Dbl.pinf => true
  | Dbl.ninf, Dbl.fin _ => true
  | Dbl.ninf, Dbl.pinf => true
  | _, _ => false

/-- The comparison `a <= b` of two doubles. -/
def Dbl.le : Dbl → Dbl → Bool
  | Dbl.nan, _ => false
  | _, Dbl.nan => false
  | Dbl.fin a, Dbl.fin b => decide (a ≤ b)
  | Dbl.ninf, _ => true
  | _, Dbl.pinf => true
  | _, _ => false

/-- The macro `LOADAVG_MX`, 1.5. -/
def LOADAVG_MX : Dbl := Dbl.fin ⟨3, 2, by decide, by decide⟩

/-! ## Operations of a process -/

/-- The descriptors `run_file` works with. -/
inductive Fd where
  | std (n : Nat)
  | fd_in
  | fd_out
deriving DecidableEq

/-- A library or system call made by the program, with the arguments that matter. -/
inductive Call where
  /-- Modelled from the spec: the macro `RELINQUISH_PRIVS_ROOT` of `privs.h`, which is not
  in the source tree; `main` gives up root rights and runs as the daemon user. -/
  | relinquish_privs_root
  | openlog
  | closelog
  | opendir
  | time
  | getloadavg
  /-- Modelled from the spec: the macro `PRIV_START` of `privs.h`, which is not in the
  source tree; it opens a bracket in which the elevated rights are in force. -/
  | priv_start
  /-- Modelled from the spec: the macro `PRIV_END` of `privs.h`, which is not in the source
  tree; it closes the bracket opened by `PRIV_START`. -/
  | priv_end
  | chmod (path : List Char) (mode : Nat)
  | fork
  | getpwuid (uid : Nat)
  | getpwnam (name : List Char)
  | fopen (path : List Char)
  | dup_fileno
  | fcntl_getfd
  | fcntl_setfd
  | fscanf
  | fclose
  | chdir (dir : List Char)
  | open_creat (path : List Char) (mode : Nat)
  | write_string (fd : Fd) (s : List Char)
  | fstat (fd : Fd)
  | close (fd : Fd)
  | lseek (fd : Fd)
  | dup (fd : Fd)
  | nice (incr : Int)
  | initgroups (name : List Char) (gid : Nat)
  | setgid (gid : Nat)
  | setuid (uid : Nat)
  | execle_sh
  | waitpid
  | stat (path : List Char)
  | open_rdonly (path : List Char)
  | unlink (path : List Char)
  | execl_mail (rcpt : List Char)
deriving DecidableEq

/-- One step of a process: a call with its outcome (`ok = false`: the call failed, or
did not return what the program tests for), the entry into `run_file` with its
arguments, a message, or the end of the process. -/
inductive Op where
  | call (c : Call) (ok : Bool)
  | run_file (filename : List Char) (uid gid : Nat)
  | syslog (msg : String)
  | perror (msg : String)
  | exit (status : Nat)
deriving DecidableEq

/-- The function `perr`: report on the debugging stream or to the system log, then
`exit(EXIT_FAILURE)`. -/
def perr (debug : Nat) (a : String) : List Op :=
  [if debug ≠ 0 then Op.perror a else Op.syslog a, Op.exit EXIT_FAILURE]

/-! ## `main`: the scan of the spool directory -/

/-- The fields of `struct stat` that `main` reads. -/
structure Stat where
  st_mode : Nat
  st_uid : Nat
  st_gid : Nat
deriving DecidableEq

/-- One entry returned by `readdir`, with the result of `stat` on it (`none`: `stat`
failed). -/
structure DirEntry where
  d_name : List Char
  st : Option Stat
deriving DecidableEq

/-- Everything `main` obtains from its environment. -/
structure MainEnv where
  chdir_ok : Bool
  spool : Option (List DirEntry)
  now : Int
  chmod_ok : List Char → Bool
  fork_ok : List Char → Bool
  unlink_ok : List Char → Bool
  loadavg : Option Dbl

/-- The variables `run_batch`, `batch_name`, `batch_uid`, `batch_gid` of `main`. -/
structure Batch where
  run_batch : Bool
  batch_name : List Char
  batch_uid : Nat
  batch_gid : Nat
deriving DecidableEq

/-- The initial values of the batch variables; `(uid_t) -1` is `2 ^ 32 - 1`. -/
def Batch.init : Batch :=
  ⟨false, "Z2345678901234".toList, 4294967295, 4294967295⟩

/-- What a stretch of the main process did: the batch variables after it, the
operations performed, and whether the process is still running (`perr` ends it). -/
structure LoopOut where
  batch : Batch
  ops : List Op
  alive : Bool
deriving DecidableEq

/-- The part of `run_file` executed by the calling process (lines 133 to 147): clear
the execute bit under elevated rights, fork, return.  The second component tells
whether the call returned. -/
def run_file_parent (debug : Nat) (chmod_ok fork_ok : Bool) (filename : List Char)
    (uid gid : Nat) : List Op × Bool :=
  if chmod_ok then
    if fork_ok then
      ([Op.run_file filename uid gid, Op.call Call.priv_start true,
        Op.call (Call.chmod filename S_IRUSR) true, Op.call Call.priv_end true,
        Op.call Call.fork true], true)
    else
      ([Op.run_file filename uid gid, Op.call Call.priv_start true,
        Op.call (Call.chmod filename S_IRUSR) true, Op.call Call.priv_end true,
        Op.call Call.fork false] ++ perr debug "Cannot fork", false)
  else
    ([Op.run_file filename uid gid, Op.call Call.priv_start true,
      Op.call (Call.chmod filename S_IRUSR) false]
      ++ perr debug "Cannot change file permissions", false)

/-- The test `(S_IXUSR & buf.st_mode) && (run_time <= now)`. -/
def run_eligible (now : Int) (mode : Nat) (ctm : Nat) : Bool :=
  (S_IXUSR &&& mode != 0) && decide (run_time_of ctm ≤ now)

/-- The test `(run_time < now) && !(S_IXUSR & buf.st_mode) && (S_IRUSR & buf.st_mode)`. -/
def delete_eligible (now : Int) (mode : Nat) (ctm : Nat) : Bool :=
  decide (run_time_of ctm < now) && (S_IXUSR &&& mode == 0) && (S_IRUSR &&& mode != 0)

/-- The body of the `while` loop of `main` (lines 380 to 411) for one entry. -/
def loop_body (debug : Nat) (env : MainEnv) (b : Batch) (e : DirEntry) : LoopOut :=
  match e.st with
  | none =>
    ⟨b, Op.call (Call.stat e.d_name) false :: perr debug "Cannot stat in /usr/spool/atjobs/", false⟩
  | some buf =>
    if S_ISREG buf.st_mode then
      match sscanf_c_8lx e.d_name with
      | none => ⟨b, [Op.call (Call.stat e.d_name) true], true⟩
      | some (queue, ctm) =>
        let b1 : Batch :=
          if run_eligible env.now buf.st_mode ctm && isupper queue
              && decide (strcmp b.batch_name e.d_name > 0) then
            ⟨true, strncpy_batch e.d_name, buf.st_uid, buf.st_gid⟩
          else b
        let r : List Op × Bool :=
          if run_eligible env.now buf.st_mode ctm && islower queue then
            run_file_parent debug (env.chmod_ok e.d_name) (env.fork_ok e.d_name)
              e.d_name buf.st_uid buf.st_gid
          else ([], true)
        if r.2 then
          if delete_eligible env.now buf.st_mode ctm then
            ⟨b1, Op.call (Call.stat e.d_name) true :: r.1
              ++ [Op.call (Call.unlink e.d_name) (env.unlink_ok e.d_name)], true⟩
          else ⟨b1, Op.call (Call.stat e.d_name) true :: r.1, true⟩
        else ⟨b1, Op.call (Call.stat e.d_name) true :: r.1, false⟩
    else ⟨b, [Op.call (Call.stat e.d_name) true], true⟩

/-- The `while` loop of `main` over the entries `readdir` returns. -/
def scan_loop (debug : Nat) (env : MainEnv) : List DirEntry → Batch → LoopOut
  | [], b => ⟨b, [], true⟩
  | e :: es, b =>
    let o := loop_body debug env b e
    if o.alive then
      let o2 := scan_loop debug env es o.batch
      ⟨o2.batch, o.ops ++ o2.ops, o2.alive⟩
    else o

/-- One result of `getopt(argc, argv, "dl:")`: `-l` with what
`sscanf(optarg, "%lf", &load_avg)` converts (`none`: it does not return 1), `-d`, the
answer `?`, or any other value. -/
inductive Opt where
  | l (arg : Option Dbl)
  | d
  | unknown
  | other
deriving DecidableEq

/-- The variables `load_avg` and `debug` while the options are read. -/
structure Config where
  load_avg : Dbl
  debug : Nat
deriving DecidableEq

/-- The option loop of `main` (lines 331 to 354): the configuration reached, or the
operations of the `perr` that ended the process. -/
def parse_opts : List Opt → Config → Except (List Op) Config
  | [], c => Except.ok c
  | Opt.l none :: _, c => Except.error (perr c.debug "garbled option -l")
  | Opt.l (some v) :: os, c =>
    parse_opts os ⟨if Dbl.le v (Dbl.fin 0) then LOADAVG_MX else v, c.debug⟩
  | Opt.d :: os, c => parse_opts os ⟨c.load_avg, c.debug + 1⟩
  | Opt.unknown :: _, c => Except.error (perr c.debug "unknown option")
  | Opt.other :: _, c => Except.error (perr c.debug "idiotic option - aborted")

/-- The end of `main` (lines 413 to 429, the `__FreeBSD__` branch): run the single
batch file if one was chosen and the load average allows it. -/
def run_batch_job (cfg : Config) (env : MainEnv) (b : Batch) : List Op :=
  if b.run_batch then
    match env.loadavg with
    | none => Op.call Call.getloadavg false :: perr cfg.debug "Error in getloadavg"
    | some la =>
      if Dbl.lt la cfg.load_avg then
        let r := run_file_parent cfg.debug (env.chmod_ok b.batch_name)
          (env.fork_ok b.batch_name) b.batch_name b.batch_uid b.batch_gid
        if r.2 then
          Op.call Call.getloadavg true :: r.1
            ++ [Op.call Call.closelog true, Op.exit EXIT_SUCCESS]
        else Op.call Call.getloadavg true :: r.1
      else
        [Op.call Call.getloadavg true, Op.call Call.closelog true, Op.exit EXIT_SUCCESS]
  else [Op.call Call.closelog true, Op.exit EXIT_SUCCESS]

/-- The function `main`: the operations of the main process, from the options
`getopt` yields and the environment. -/
def main (opts : List Opt) (env : MainEnv) : List Op :=
  Op.call Call.relinquish_privs_root true :: Op.call Call.openlog true ::
  match parse_opts opts ⟨LOADAVG_MX, 0⟩ with
  | Except.error ops => ops
  | Except.ok cfg =>
    if env.chdir_ok then
      Op.call (Call.chdir ATJOB_DIR) true ::
      match env.spool with
      | none => Op.call Call.opendir false :: perr cfg.debug "Cannot read /usr/spool/atjobs/"
      | some entries =>
        let o := scan_loop cfg.debug env entries Batch.init
        if o.alive then
          Op.call Call.opendir true :: Op.call Call.time true :: o.ops
            ++ run_batch_job cfg env o.batch
        else Op.call Call.opendir true :: Op.call Call.time true :: o.ops
    else Op.call (Call.chdir ATJOB_DIR) false :: perr cfg.debug "Cannot change to /usr/spool/atjobs/"

/-! ## `run_file`: the child processes -/

/-- The fields of `struct passwd` that `run_file` reads. -/
structure Passwd where
  pw_name : List Char
  pw_uid : Nat
  pw_gid : Nat
  pw_dir : List Char
deriving DecidableEq

/-- Everything the processes forked by `run_file` obtain from their environment: the
user database, the text of the job file, the sizes `fstat` and `stat` report for the
output file, and the outcome of every other call in the order of the source. -/
structure Env where
  getpwuid : Nat → Option Passwd
  getpwnam : List Char → Option Passwd
  script : Option (List Char)
  dup_fileno_ok : Bool
  fcntl_getfd_ok : Bool
  chdir_spool_ok : Bool
  open_creat_ok : Bool
  size0 : Int
  fork_ok : Bool
  lseek_ok : Bool
  dup_stdin_ok : Bool
  dup_stdout_ok : Bool
  dup_stderr_ok : Bool
  chdir_jobs_ok : Bool
  nice_ok : Bool
  chdir_home_ok : Bool
  initgroups_ok : Bool
  setgid_ok : Bool
  setuid_ok : Bool
  execle_ok : Bool
  size1 : Option Int
  open_rdonly_ok : Bool
  execl_ok : Bool

/-- Skips white space: what a white-space directive of a `scanf` format does. -/
def skip_ws (inp : List Char) : List Char := inp.dropWhile isspace

/-- Matches the ordinary characters `lit` of a `scanf` format against the input. -/
def match_lit : List Char → List Char → Option (List Char)
  | [], inp => some inp
  | _ :: _, [] => none
  | l :: ls, c :: cs => if l = c then match_lit ls cs else none

/-- The conversion `%8s`: skip white space, then take the run of at most eight
characters that are not white space; `none` when there is none. -/
def scan_8s (inp : List Char) : Option (List Char × List Char) :=
  let word := ((skip_ws inp).takeWhile (fun c => !isspace c)).take 8
  if word = [] then none else some (word, (skip_ws inp).drop word.length)

/-- Value of a run of decimal digits, most significant first. -/
def decnum (acc : Nat) : List Char → Nat
  | [] => acc
  | c :: cs => decnum (acc * 10 + (decval c).getD 0) cs

/-- The value `strtol` returns, kept within the range of `long`, as stored in an
`int`: its low 32 bits in two's complement. -/
def store_int (v : Int) : Int :=
  let r : Int := if v < -9223372036854775808 then -9223372036854775808
    else if v > 9223372036854775807 then 9223372036854775807 else v
  if r % 4294967296 < 2147483648 then r % 4294967296 else r % 4294967296 - 4294967296

/-- The conversion `%d`: skip white space, then read an optionally signed decimal
integer; `none` when there is no digit. -/
def scan_d (inp : List Char) : Option Int :=
  let s := skip_ws inp
  let neg := s.head?.map Char.toNat = some 45
  let signed := s.head?.map Char.toNat = some 45 ∨ s.head?.map Char.toNat = some 43
  let body := if signed then s.tail else s
  let digits := body.takeWhile (fun c => (decval c).isSome)
  if digits = [] then none
  else some (store_int (if neg then - (decnum 0 digits : Int) else (decnum 0 digits : Int)))

/-- The call `fscanf(stream, "#! /bin/sh\n# mail %8s %d", mailbuf, &send_mail)` on the
text of the job file: `some (mailbuf, send_mail)` when it returns 2. -/
def fscanf_header (text : List Char) : Option (List Char × Int) :=
  match match_lit "#!".toList text with
  | none => none
  | some r1 =>
    match match_lit "/bin/sh".toList (skip_ws r1) with
    | none => none
    | some r2 =>
      match match_lit "#".toList (skip_ws r2) with
      | none => none
      | some r3 =>
        match match_lit "mail".toList (skip_ws r3) with
        | none => none
        | some r4 =>
          match scan_8s (skip_ws r4) with
          | none => none
          | some (mailbuf, r5) =>
            match scan_d (skip_ws r5) with
            | none => none
            | some send_mail => some (mailbuf, send_mail)

/-- The job-body process (lines 219 to 263): the child of the second `fork`.  It
redirects its standard streams, enters `ATJOB_DIR`, and between `PRIV_START` and the
`execle` of `/bin/sh` changes priority, directory, groups, group and user.  The
results of `nice` and of the `chdir` to the home directory are not tested. -/
def job_body (env : Env) (debug : Nat) (filename : List Char) (pentry : Passwd)
    (uid gid : Nat) : List Op :=
  Op.call (Call.lseek Fd.fd_in) env.lseek_ok ::
  if env.lseek_ok then
    Op.call (Call.dup Fd.fd_in) env.dup_stdin_ok ::
    if env.dup_stdin_ok then
      Op.call (Call.dup Fd.fd_out) env.dup_stdout_ok ::
      if env.dup_stdout_ok then
        Op.call (Call.dup Fd.fd_out) env.dup_stderr_ok ::
        if env.dup_stderr_ok then
          Op.call (Call.close Fd.fd_in) true ::
          Op.call (Call.close Fd.fd_out) true ::
          Op.call (Call.chdir ATJOB_DIR) env.chdir_jobs_ok ::
          if env.chdir_jobs_ok then
            Op.call Call.priv_start true ::
            Op.call (Call.nice (tolower (filename.headD (Char.ofNat 0)) - 97)) env.nice_ok ::
            Op.call (Call.chdir pentry.pw_dir) env.chdir_home_ok ::
            Op.call (Call.initgroups pentry.pw_name pentry.pw_gid) env.initgroups_ok ::
            if env.initgroups_ok then
              Op.call (Call.setgid gid) env.setgid_ok ::
              if env.setgid_ok then
                Op.call (Call.setuid uid) env.setuid_ok ::
                if env.setuid_ok then
                  Op.call Call.execle_sh env.execle_ok ::
                  if env.execle_ok then [] else perr debug "Exec failed"
                else perr debug "Cannot set user id"
              else perr debug "Cannot change group"
            else perr debug "Cannot delete saved userids"
          else perr debug "Cannot chdir to /usr/spool/atjobs/"
        else perr debug "Error in I/O redirection"
      else perr debug "Error in I/O redirection"
    else perr debug "Error in I/O redirection"
  else perr debug "Error in lseek"

/-- The end of `run_file` in the waiting process (lines 267 to 290): after the job
body has finished, look at the size of the output file, reopen it as standard input,
unlink it, and send mail or exit.  A failing `stat` leaves in `buf` the size `fstat`
stored there. -/
def notify (env : Env) (debug : Nat) (filename mailname : List Char) (size : Int)
    (send_mail : Int) : List Op :=
  Op.call (Call.close Fd.fd_in) true ::
  Op.call (Call.close Fd.fd_out) true ::
  Op.call Call.waitpid true ::
  Op.call (Call.stat filename) env.size1.isSome ::
  Op.call (Call.open_rdonly filename) env.open_rdonly_ok ::
  if env.open_rdonly_ok then
    Op.call (Call.unlink filename) true ::
    if env.size1.getD size ≠ size ∨ send_mail ≠ 0 then
      Op.call (Call.execl_mail mailname) env.execl_ok ::
      if env.execl_ok then [] else perr debug "Exec failed"
    else [Op.exit EXIT_SUCCESS]
  else perr debug "Open of jobfile failed"

/-- A run of the first child of `run_file`: its own operations, and those of the
job-body process when the second `fork` created it. -/
structure ChildRun where
  trace : List Op
  body : Option (List Op)
deriving DecidableEq

/-- The first child from the creation of the output file on (lines 193 to 290), once
the recipient `mailname`, the flag `send_mail` and `pentry` are known. -/
def capture_and_run (env : Env) (debug : Nat) (filename : List Char) (uid gid : Nat)
    (pentry : Passwd) (mailname : List Char) (send_mail : Int) : ChildRun :=
  if env.chdir_spool_ok then
    if env.open_creat_ok then
      if env.fork_ok then
        ⟨[Op.call Call.fclose true, Op.call (Call.chdir ATSPOOL_DIR) true,
          Op.call (Call.open_creat filename (S_IWUSR ||| S_IRUSR)) true,
          Op.call (Call.write_string Fd.fd_out "Subject: Output from your job ".toList) true,
          Op.call (Call.write_string Fd.fd_out filename) true,
          Op.call (Call.write_string Fd.fd_out [Char.ofNat 10, Char.ofNat 10]) true,
          Op.call (Call.fstat Fd.fd_out) true,
          Op.call (Call.close (Fd.std STDIN_FILENO)) true,
          Op.call (Call.close (Fd.std STDOUT_FILENO)) true,
          Op.call (Call.close (Fd.std STDERR_FILENO)) true,
          Op.call Call.fork true]
          ++ notify env debug filename mailname env.size0 send_mail,
         some (job_body env debug filename pentry uid gid)⟩
      else
        ⟨[Op.call Call.fclose true, Op.call (Call.chdir ATSPOOL_DIR) true,
          Op.call (Call.open_creat filename (S_IWUSR ||| S_IRUSR)) true,
          Op.call (Call.write_string Fd.fd_out "Subject: Output from your job ".toList) true,
          Op.call (Call.write_string Fd.fd_out filename) true,
          Op.call (Call.write_string Fd.fd_out [Char.ofNat 10, Char.ofNat 10]) true,
          Op.call (Call.fstat Fd.fd_out) true,
          Op.call (Call.close (Fd.std STDIN_FILENO)) true,
          Op.call (Call.close (Fd.std STDOUT_FILENO)) true,
          Op.call (Call.close (Fd.std STDERR_FILENO)) true,
          Op.call Call.fork false] ++ perr debug "Error in fork", none⟩
    else
      ⟨[Op.call Call.fclose true, Op.call (Call.chdir ATSPOOL_DIR) true,
        Op.call (Call.open_creat filename (S_IWUSR ||| S_IRUSR)) false]
        ++ perr debug "Cannot create output file", none⟩
  else
    ⟨[Op.call Call.fclose true, Op.call (Call.chdir ATSPOOL_DIR) false]
      ++ perr debug "Cannot chdir to /usr/spool/atspool/", none⟩

/-- The contents of a character array read as a C string: the bytes before the first
NUL.  `%8s` stores every byte that is not white space, a NUL of the job file included,
and `getpwnam`, `syslog` and `execl` then read `mailbuf` up to its first NUL. -/
def c_str (buf : List Char) : List Char := buf.takeWhile (fun c => c.toNat != 0)

/-- The recipient resolution of the first child (lines 178 to 191), then the rest of
the child.  A header from which `fscanf` converts both items names the recipient, the
string in `mailbuf`, who must exist and have the uid of the job file; otherwise the job
is aborted. -/
def resolve_and_run (env : Env) (debug : Nat) (filename : List Char) (uid gid : Nat)
    (pentry : Passwd) (text : List Char) : ChildRun :=
  match fscanf_header text with
  | some (mailbuf, send_mail) =>
    match env.getpwnam (c_str mailbuf) with
    | none =>
      ⟨[Op.call Call.fscanf true, Op.call (Call.getpwnam (c_str mailbuf)) false,
        Op.syslog "Userid %lu mismatch name %s - aborting job %s",
        Op.exit EXIT_FAILURE], none⟩
    | some pw =>
      if pw.pw_uid ≠ uid then
        ⟨[Op.call Call.fscanf true, Op.call (Call.getpwnam (c_str mailbuf)) true,
          Op.syslog "Userid %lu mismatch name %s - aborting job %s",
          Op.exit EXIT_FAILURE], none⟩
      else
        let r := capture_and_run env debug filename uid gid pw (c_str mailbuf) send_mail
        ⟨Op.call Call.fscanf true :: Op.call (Call.getpwnam (c_str mailbuf)) true :: r.trace,
          r.body⟩
  | none =>
    let r := capture_and_run env debug filename uid gid pentry pentry.pw_name 0
    ⟨Op.call Call.fscanf false :: r.trace, r.body⟩

/-- The child created by the first `fork` of `run_file` (lines 154 to 290). -/
def run_file_child (env : Env) (debug : Nat) (filename : List Char) (uid gid : Nat) :
    ChildRun :=
  match env.getpwuid uid with
  | none =>
    ⟨[Op.call (Call.getpwuid uid) false, Op.syslog "Userid %lu not found - aborting job %s",
      Op.exit EXIT_FAILURE], none⟩
  | some pentry =>
    match env.script with
    | none =>
      ⟨[Op.call (Call.getpwuid uid) true, Op.call Call.priv_start true,
        Op.call (Call.fopen filename) false, Op.call Call.priv_end true]
        ++ perr debug "Cannot open input file", none⟩
    | some text =>
      if env.dup_fileno_ok then
        if env.fcntl_getfd_ok then
          let r := resolve_and_run env debug filename uid gid pentry text
          ⟨[Op.call (Call.getpwuid uid) true, Op.call Call.priv_start true,
            Op.call (Call.fopen filename) true, Op.call Call.priv_end true,
            Op.call Call.dup_fileno true, Op.call Call.fcntl_getfd true,
            Op.call Call.fcntl_setfd true] ++ r.trace, r.body⟩
        else
          ⟨[Op.call (Call.getpwuid uid) true, Op.call Call.priv_start true,
            Op.call (Call.fopen filename) true, Op.call Call.priv_end true,
            Op.call Call.dup_fileno true, Op.call Call.fcntl_getfd false]
            ++ perr debug "Error in fcntl", none⟩
      else
        ⟨[Op.call (Call.getpwuid uid) true, Op.call Call.priv_start true,
          Op.call (Call.fopen filename) true, Op.call Call.priv_end true,
          Op.call Call.dup_fileno false]
          ++ perr debug "Error duplicating input file descriptor", none⟩

/-! ## Predicates used to state the properties -/

/-- An entry the loop of `main` treats as a run-eligible job of a deferred queue: a
regular file whose name `sscanf` converts, with an upper-case queue character, the
execute bit set and `run_time <= now`. -/
def batch_eligible (now : Int) (e : DirEntry) : Bool :=
  match e.st with
  | none => false
  | some buf =>
    S_ISREG buf.st_mode &&
      match sscanf_c_8lx e.d_name with
      | none => false
      | some (queue, ctm) => run_eligible now buf.st_mode ctm && isupper queue

/-- The first byte of a file name (NUL for the empty name): `*filename`. -/
def queue_of (name : List Char) : Char := name.headD (Char.ofNat 0)

/-- A call of `run_file` on a file of a deferred queue. -/
def is_batch_call : Op → Bool
  | Op.run_file f _ _ => isupper (queue_of f)
  | _ => false

/-- An operation that changes or removes the file `name`: a call of `run_file` on it,
a `chmod` of it, an `unlink` of it. -/
def touches (name : List Char) : Op → Bool
  | Op.run_file f _ _ => f == name
  | Op.call (Call.chmod f _) _ => f == name
  | Op.call (Call.unlink f) _ => f == name
  | _ => false

/-- An operation that claims the file `name`, changing its mode: a call of `run_file`
on it, a `chmod` of it. -/
def claims (name : List Char) : Op → Bool
  | Op.run_file f _ _ => f == name
  | Op.call (Call.chmod f _) _ => f == name
  | _ => false

/-- A name of the form: one character, exactly eight hexadecimal digits, any suffix. -/
def has_timestamp_form : List Char → Bool
  | [] => false
  | _ :: rest => decide (8 ≤ rest.length) && (rest.take 8).all isxdigit

/-- A digit as `%lx` prints it: `0` to `9` or `a` to `f`. -/
def is_lower_xdigit (c : Char) : Bool :=
  (48 ≤ c.toNat && c.toNat ≤ 57) || (97 ≤ c.toNat && c.toNat ≤ 102)

/-- A name as `at` writes it: one character, eight digits among `0` to `9` and `a`
to `f`, any suffix. -/
def has_at_form : List Char → Bool
  | [] => false
  | _ :: rest => decide (8 ≤ rest.length) && (rest.take 8).all is_lower_xdigit

/-- The call made by an operation, if it is one. -/
def call_of : Op → Option Call
  | Op.call c _ => some c
  | _ => none

/-- The operations of a trace that precede the first occurrence of `x`. -/
def ops_before (x : Op) (tr : List Op) : List Op := tr.takeWhile (fun op => op != x)

/-- The operations of a trace that follow the first occurrence of `x`. -/
def ops_after (x : Op) (tr : List Op) : List Op := (tr.dropWhile (fun op => op != x)).drop 1

/-- The calls that change the identity or the priority of the process. -/
def is_identity_call : Call → Bool
  | Call.nice _ => true
  | Call.initgroups _ _ => true
  | Call.setgid _ => true
  | Call.setuid _ => true
  | _ => false

/-- The five steps of the permanent drop and the `execle`, as calls, in the order of
the source. -/
def drop_calls (filename : List Char) (pentry : Passwd) (uid gid : Nat) : List Call :=
  [Call.nice (tolower (queue_of filename) - 97), Call.chdir pentry.pw_dir,
   Call.initgroups pentry.pw_name pentry.pw_gid, Call.setgid gid, Call.setuid uid,
   Call.execle_sh]

/-! ## Concrete inputs -/

/-- A regular file `name` with permission bits `perm`, owned by uid 1000, gid 100. -/
def file (name : String) (perm : Nat) : DirEntry :=
  ⟨name.toList, some ⟨S_IFREG ||| perm, 1000, 100⟩⟩

/-- An environment of `main` in which every call succeeds: the time, the entries of
the spool directory and the load average are given. -/
def calm (now : Int) (entries : List DirEntry) (la : Dbl) : MainEnv :=
  ⟨true, some entries, now, fun _ => true, fun _ => true, fun _ => true, some la⟩

/-- A spool with two pending jobs of deferred queues, the later one listed first. -/
def two_batch_jobs : List DirEntry :=
  [file "B00000002.001" 0o700, file "B00000001.002" 0o700]

/-- A spool with two pending jobs of two deferred queues: minute 5 in queue `A`,
minute 1 in queue `B`. -/
def two_queues : List DirEntry :=
  [file "B00000001.001" 0o700, file "A00000005.001" 0o700]

/-- The user `alice`, uid 1000. -/
def alice : Passwd := ⟨"alice".toList, 1000, 100, "/home/alice".toList⟩

/-- A user database that holds `alice` only. -/
def by_name (n : List Char) : Option Passwd :=
  if n = "alice".toList then some alice else none

/-- A user database that holds uid 1000 only. -/
def by_uid (u : Nat) : Option Passwd := if u = 1000 then some alice else none

/-- An environment of `run_file` in which every call succeeds: the text of the job
file and the two sizes of the output file are given. -/
def smooth (text : String) (size0 size1 : Int) : Env :=
  ⟨by_uid, by_name, some text.toList, true, true, true, true, size0, true, true, true,
    true, true, true, true, true, true, true, true, true, some size1, true, true⟩

/-- An environment of `run_file` in which every call succeeds except `setgid`. -/
def no_setgid : Env :=
  ⟨by_uid, by_name, some [], true, true, true, true, 0, true, true, true,
    true, true, true, true, true, true, false, true, true, some 0, true, true⟩

/-- As `smooth`, but `nice` and the `chdir` to the home directory fail. -/
def rough (text : String) (size0 size1 : Int) : Env :=
  ⟨by_uid, by_name, some text.toList, true, true, true, true, size0, true, true, true,
    true, true, true, false, false, true, true, true, true, some size1, true, true⟩

end Atrun

namespace Atrun

theorem run_time_of_small (ctm : Nat) (h : ctm < 4294967296) :
    run_time_of ctm = (ctm : Int) * 60 := by
  have h1 : ctm % ULONG_MOD = ctm := Nat.mod_eq_of_lt (by unfold ULONG_MOD; omega)
  have h2 : to_time_t ctm = (ctm : Int) := by
    unfold to_time_t
    rw [h1, if_pos (by omega)]
  have h3 : ((ctm : Int) * 60 % 18446744073709551616).toNat = ctm * 60 := by
    rw [Int.emod_eq_of_lt (by omega) (by omega)]
    omega
  unfold run_time_of wrap_time_t
  rw [h2, h3]
  have h4 : (ctm * 60) % ULONG_MOD = ctm * 60 := Nat.mod_eq_of_lt (by unfold ULONG_MOD; omega)
  unfold to_time_t
  rw [h4, if_pos (by omega)]
  push_cast
  ring

theorem wrap_time_t_small (i : Int) (h1 : -4294967296 * 60 < i) (h2 : i < 4294967296 * 60) :
    wrap_time_t i = i := by
  unfold wrap_time_t to_time_t ULONG_MOD
  rcases Int.lt_or_le i 0 with hneg | hpos
  · have e1 : i % 18446744073709551616 = i + 18446744073709551616 := by
      rw [← Int.add_emod_self]
      exact Int.emod_eq_of_lt (by omega) (by omega)
    have e2 : (i % 18446744073709551616).toNat % 18446744073709551616
        = (i + 18446744073709551616).toNat := by
      rw [e1]
      exact Nat.mod_eq_of_lt (by omega)
    rw [e2, if_neg (by omega)]
    omega
  · have e1 : i % 18446744073709551616 = i := Int.emod_eq_of_lt hpos (by omega)
    have e2 : (i % 18446744073709551616).toNat % 18446744073709551616 = i.toNat := by
      rw [e1]
      exact Nat.mod_eq_of_lt (by omega)
    rw [e2, if_pos (by omega)]
    omega

theorem hexval_le (c : Char) : (hexval c).getD 0 ≤ 15 := by
  unfold hexval
  split_ifs <;> simp <;> omega

theorem hexnum_lt (ds : List Char) (acc : Nat) :
    hexnum acc ds < (acc + 1) * 16 ^ ds.length := by
  induction ds generalizing acc with
  | nil => simp [hexnum]
  | cons c cs ih =>
    have h := ih (acc * 16 + (hexval c).getD 0)
    have hc := hexval_le c
    simp only [hexnum, List.length_cons]
    calc hexnum (acc * 16 + (hexval c).getD 0) cs
        < (acc * 16 + (hexval c).getD 0 + 1) * 16 ^ cs.length := h
      _ ≤ ((acc + 1) * 16) * 16 ^ cs.length := Nat.mul_le_mul_right _ (by omega)
      _ = (acc + 1) * 16 ^ (cs.length + 1) := by ring

theorem strip0x_length (cs : List Char) : (strip0x cs).length ≤ cs.length := by
  unfold strip0x
  split
  · split_ifs <;> simp
  · exact Nat.le_refl _

theorem scan_digits_length (inp : List Char) : (scan_digits (scan_field inp)).length ≤ 8 := by
  unfold scan_digits hexrun
  refine le_trans (List.takeWhile_sublist _).length_le (le_trans (strip0x_length _) ?_)
  unfold scan_field
  split_ifs
  · simp only [List.length_tail, List.length_take]; omega
  · simp only [List.length_take]; omega

theorem scan_digits_value (inp : List Char) :
    hexnum 0 (scan_digits (scan_field inp)) < 4294967296 := by
  have h := hexnum_lt (scan_digits (scan_field inp)) 0
  have h2 : 16 ^ (scan_digits (scan_field inp)).length ≤ 16 ^ 8 :=
    Nat.pow_le_pow_right (by norm_num) (scan_digits_length inp)
  norm_num at h h2
  omega

theorem scan_8lx_time (inp : List Char) (ctm : Nat) (h : scan_8lx inp = some ctm) :
    -4294967296 < to_time_t ctm ∧ to_time_t ctm < 4294967296 := by
  have hv := scan_digits_value inp
  unfold scan_8lx at h
  unfold to_time_t
  unfold ULONG_MOD at *
  split_ifs at h <;> simp only [Option.some.injEq] at h <;> subst h <;> split_ifs <;> omega

theorem run_time_of_scanned (inp : List Char) (ctm : Nat) (h : scan_8lx inp = some ctm) :
    run_time_of ctm = to_time_t ctm * 60 := by
  have hb := scan_8lx_time inp ctm h
  unfold run_time_of
  exact wrap_time_t_small _ (by omega) (by omega)

theorem to_time_t_small (ctm : Nat) (h : ctm < 4294967296) : to_time_t ctm = (ctm : Int) := by
  unfold to_time_t ULONG_MOD
  rw [Nat.mod_eq_of_lt (by omega), if_pos (by omega)]

theorem sscanf_scanned (name : List Char) (queue : Char) (ctm : Nat)
    (h : sscanf_c_8lx name = some (queue, ctm)) :
    ∃ rest, name = queue :: rest ∧ scan_8lx rest = some ctm := by
  unfold sscanf_c_8lx at h
  split at h
  · simp at h
  · rename_i q rest
    split at h
    · simp at h
    · rename_i c hc
      simp only [Option.some.injEq, Prod.mk.injEq] at h
      exact ⟨rest, by rw [h.1], by rw [hc, h.2]⟩

theorem run_time_of_sscanf (name : List Char) (queue : Char) (ctm : Nat)
    (h : sscanf_c_8lx name = some (queue, ctm)) : run_time_of ctm = to_time_t ctm * 60 := by
  obtain ⟨rest, _, hr⟩ := sscanf_scanned name queue ctm h
  exact run_time_of_scanned rest ctm hr

theorem run_file_parent_returns (debug : Nat) (c k : Bool) (f : List Char) (u g : Nat) :
    (run_file_parent debug c k f u g).2 = (c && k) := by
  unfold run_file_parent
  cases c <;> cases k <;> rfl

theorem run_file_parent_run (debug : Nat) (c k : Bool) (f : List Char) (u g : Nat)
    (f2 : List Char) (u2 g2 : Nat) :
    Op.run_file f2 u2 g2 ∈ (run_file_parent debug c k f u g).1 ↔ (f2 = f ∧ u2 = u ∧ g2 = g) := by
  unfold run_file_parent perr
  cases c <;> cases k <;> simp <;> split_ifs <;> simp

theorem run_file_parent_unlink (debug : Nat) (c k : Bool) (f : List Char) (u g : Nat)
    (x : List Char) (ok : Bool) :
    Op.call (Call.unlink x) ok ∉ (run_file_parent debug c k f u g).1 := by
  unfold run_file_parent perr
  cases c <;> cases k <;> simp <;> split_ifs <;> simp

theorem islower_not_isupper (c : Char) (h : islower c = true) : isupper c = false := by
  unfold islower at h
  unfold isupper
  simp only [Bool.and_eq_true, decide_eq_true_eq] at h
  simp only [Bool.and_eq_false_imp, decide_eq_true_eq, decide_eq_false_iff_not]
  omega

theorem delete_not_run (now : Int) (mode ctm : Nat)
    (h : delete_eligible now mode ctm = true) : run_eligible now mode ctm = false := by
  unfold delete_eligible at h
  unfold run_eligible
  simp only [Bool.and_eq_true, decide_eq_true_eq, beq_iff_eq, bne_iff_ne, ne_eq] at h
  simp [h.1.2]

/-- The body of the loop on a regular entry whose name is converted: which of
`run_file` and `unlink` are called, stated through the two tests of the source. -/
theorem loop_body_ops (debug : Nat) (env : MainEnv) (b : Batch) (e : DirEntry) (buf : Stat)
    (queue : Char) (ctm : Nat) (hst : e.st = some buf) (hreg : S_ISREG buf.st_mode = true)
    (hscan : sscanf_c_8lx e.d_name = some (queue, ctm)) :
    (∀ f u g, Op.run_file f u g ∈ (loop_body debug env b e).ops ↔
      ((run_eligible env.now buf.st_mode ctm = true ∧ islower queue = true) ∧
        f = e.d_name ∧ u = buf.st_uid ∧ g = buf.st_gid)) ∧
    (∀ x ok, Op.call (Call.unlink x) ok ∈ (loop_body debug env b e).ops ↔
      (delete_eligible env.now buf.st_mode ctm = true ∧ x = e.d_name
        ∧ ok = env.unlink_ok e.d_name)) := by
  unfold loop_body
  simp only [hst, hreg, hscan, if_true]
  by_cases hd : delete_eligible env.now buf.st_mode ctm = true
  · have hr := delete_not_run _ _ _ hd
    simp [hd, hr]
  · by_cases hq : (run_eligible env.now buf.st_mode ctm && islower queue) = true
    · have hq2 : run_eligible env.now buf.st_mode ctm = true ∧ islower queue = true := by
        simpa using hq
      simp only [hq, if_true, run_file_parent_returns]
      by_cases hr : (env.chmod_ok e.d_name && env.fork_ok e.d_name) = true
      · simp [hr, hd, hq2, run_file_parent_run, run_file_parent_unlink]
      · have hr2 : (env.chmod_ok e.d_name && env.fork_ok e.d_name) = false := by
          simpa using hr
        simp [hr2, hd, hq2, run_file_parent_run, run_file_parent_unlink]
    · have hq2 : ¬ (run_eligible env.now buf.st_mode ctm = true ∧ islower queue = true) := by
        simpa using hq
      simp [hq, hd, hq2]

/-! ## Order properties of `strcmp` -/

theorem strcmp_self (a : List Char) : strcmp a a = 0 := by
  induction a with
  | nil => rfl
  | cons x xs ih => simp [strcmp, ih]

theorem strcmp_swap (a b : List Char) : strcmp a b = - strcmp b a := by
  induction a generalizing b with
  | nil => cases b <;> simp [strcmp]
  | cons x xs ih =>
    cases b with
    | nil => simp [strcmp]
    | cons y ys =>
      simp only [strcmp]
      by_cases hxy : x = y
      · subst hxy
        simp [ih ys]
      · have hyx : ¬ y = x := fun h => hxy h.symm
        simp only [hxy, hyx, if_false]
        omega

theorem strcmp_lt_le (a b c : List Char) (h1 : strcmp a b < 0) (h2 : strcmp b c ≤ 0) :
    strcmp a c ≤ 0 := by
  induction a generalizing b c with
  | nil => cases c <;> simp [strcmp]
  | cons x xs ih =>
    cases b with
    | nil => simp [strcmp] at h1; omega
    | cons y ys =>
      cases c with
      | nil =>
        simp only [strcmp] at h1 h2 ⊢
        by_cases hxy : x = y
        · subst hxy; exact h2
        · simp only [hxy, if_false] at h1; omega
      | cons z zs =>
        simp only [strcmp] at h1 h2 ⊢
        by_cases hxy : x = y
        · subst hxy
          simp only [if_true] at h1
          by_cases hxz : x = z
          · subst hxz
            simp only [if_true] at h2 ⊢
            exact ih ys zs h1 h2
          · simp only [hxz, if_false] at h2 ⊢
            exact h2
        · simp only [hxy, if_false] at h1
          by_cases hyz : y = z
          · subst hyz
            simp only [hxy, if_false]
            omega
          · simp only [hyz, if_false] at h2
            have hxz : ¬ x = z := by
              intro h
              subst h
              omega
            simp only [hxz, if_false]
            omega

theorem strcmp_lt_trans (a b c : List Char) (h1 : strcmp a b < 0) (h2 : strcmp b c < 0) :
    strcmp a c < 0 := by
  induction a generalizing b c with
  | nil =>
    cases b with
    | nil => simp [strcmp] at h1
    | cons y ys =>
      cases c with
      | nil => simp [strcmp] at h2; omega
      | cons z zs =>
        simp only [strcmp] at h1 h2 ⊢
        by_cases hyz : y = z
        · subst hyz; exact h1
        · simp only [hyz, if_false] at h2; omega
  | cons x xs ih =>
    cases b with
    | nil => simp [strcmp] at h1; omega
    | cons y ys =>
      cases c with
      | nil => simp [strcmp] at h2; omega
      | cons z zs =>
        simp only [strcmp] at h1 h2 ⊢
        by_cases hxy : x = y
        · subst hxy
          simp only [if_true] at h1
          by_cases hxz : x = z
          · subst hxz
            simp only [if_true] at h2 ⊢
            exact ih ys zs h1 h2
          · simp only [hxz, if_false] at h2 ⊢
            exact h2
        · simp only [hxy, if_false] at h1
          by_cases hyz : y = z
          · subst hyz
            simp only [hxy, if_false]
            omega
          · simp only [hyz, if_false] at h2
            have hxz : ¬ x = z := by
              intro h
              subst h
              omega
            simp only [hxz, if_false]
            omega

/-! ## Invariants of the scan loop -/

theorem queue_of_sscanf (name : List Char) (queue : Char) (ctm : Nat)
    (h : sscanf_c_8lx name = some (queue, ctm)) : queue_of name = queue := by
  obtain ⟨rest, hn, _⟩ := sscanf_scanned name queue ctm h
  rw [hn]
  rfl

theorem run_file_parent_touch (debug : Nat) (c k : Bool) (f : List Char) (u g : Nat) :
    ∀ op ∈ (run_file_parent debug c k f u g).1,
      (is_batch_call op = true → isupper (queue_of f) = true) ∧
      ∀ name, touches name op = true → name = f := by
  unfold run_file_parent perr
  cases c <;> cases k <;> simp [is_batch_call, touches] <;> split_ifs <;>
    simp [is_batch_call, touches]

/-- What one pass of the loop body can touch: nothing of a deferred queue is passed to
`run_file`, and a file is touched only if it is the entry itself and the entry is not a
run-eligible job of a deferred queue. -/
theorem loop_body_touch (debug : Nat) (env : MainEnv) (b : Batch) (e : DirEntry) :
    ∀ op ∈ (loop_body debug env b e).ops,
      is_batch_call op = false ∧
      ∀ name, touches name op = true → (name = e.d_name ∧ batch_eligible env.now e = false) := by
  unfold loop_body batch_eligible
  cases hst : e.st with
  | none =>
    unfold perr
    simp [is_batch_call, touches]
    split_ifs <;> simp [is_batch_call, touches]
  | some buf =>
    by_cases hreg : S_ISREG buf.st_mode = true
    · cases hscan : sscanf_c_8lx e.d_name with
      | none => simp [hreg, is_batch_call, touches]
      | some qc =>
        obtain ⟨queue, ctm⟩ := qc
        have hqo := queue_of_sscanf e.d_name queue ctm hscan
        simp only [hreg, if_true, Bool.true_and]
        by_cases hd : delete_eligible env.now buf.st_mode ctm = true
        · have hr := delete_not_run _ _ _ hd
          simp [hd, hr, is_batch_call, touches]
        · have hd2 : delete_eligible env.now buf.st_mode ctm = false := by simpa using hd
          by_cases hq : (run_eligible env.now buf.st_mode ctm && islower queue) = true
          · have hq2 : run_eligible env.now buf.st_mode ctm = true ∧ islower queue = true := by
              simpa using hq
            have hup := islower_not_isupper queue hq2.2
            have hp := run_file_parent_touch debug (env.chmod_ok e.d_name)
              (env.fork_ok e.d_name) e.d_name buf.st_uid buf.st_gid
            rw [hqo, hup] at hp
            simp only [hq, if_true, hd2, hup, Bool.and_false, Bool.false_and,
              Bool.false_eq_true, if_false]
            intro op hop
            have hop2 : op = Op.call (Call.stat e.d_name) true ∨
                op ∈ (run_file_parent debug (env.chmod_ok e.d_name) (env.fork_ok e.d_name)
                  e.d_name buf.st_uid buf.st_gid).1 := by
              split_ifs at hop <;> simpa using hop
            rcases hop2 with h | h
            · subst h
              simp [is_batch_call, touches]
            · have := hp op h
              refine ⟨?_, fun name hn => ⟨this.2 name hn, trivial⟩⟩
              cases hb : is_batch_call op
              · rfl
              · exact absurd (this.1 hb) (by simp)
          · simp [hq, hd2, is_batch_call, touches]
    · simp [hreg, is_batch_call, touches]

theorem scan_loop_touch (debug : Nat) (env : MainEnv) (es : List DirEntry) (b : Batch) :
    ∀ op ∈ (scan_loop debug env es b).ops,
      is_batch_call op = false ∧
      ∀ name, touches name op = true →
        ∃ e ∈ es, e.d_name = name ∧ batch_eligible env.now e = false := by
  induction es generalizing b with
  | nil => simp [scan_loop]
  | cons e es ih =>
    intro op hop
    simp only [scan_loop] at hop
    have hb := loop_body_touch debug env b e
    split_ifs at hop with halive
    · simp only [List.mem_append] at hop
      rcases hop with h | h
      · refine ⟨(hb op h).1, fun name hn => ⟨e, List.mem_cons_self _ _, ?_⟩⟩
        have := (hb op h).2 name hn
        exact ⟨this.1.symm, this.2⟩
      · refine ⟨(ih _ op h).1, fun name hn => ?_⟩
        obtain ⟨t, ht, h1, h2⟩ := (ih _ op h).2 name hn
        exact ⟨t, List.mem_cons_of_mem _ ht, h1, h2⟩
    · refine ⟨(hb op hop).1, fun name hn => ⟨e, List.mem_cons_self _ _, ?_⟩⟩
      have := (hb op hop).2 name hn
      exact ⟨this.1.symm, this.2⟩

/-- The batch variables after one pass of the loop body: replaced by the entry when it
is a run-eligible job of a deferred queue whose name is below the current one, and left
as they are otherwise. -/
theorem loop_body_batch (debug : Nat) (env : MainEnv) (b : Batch) (e : DirEntry) :
    (batch_eligible env.now e = true ∧ strcmp b.batch_name e.d_name > 0 ∧
      ∃ buf, e.st = some buf ∧
        (loop_body debug env b e).batch
          = ⟨true, strncpy_batch e.d_name, buf.st_uid, buf.st_gid⟩) ∨
    ((loop_body debug env b e).batch = b ∧
      (batch_eligible env.now e = true → strcmp b.batch_name e.d_name ≤ 0)) := by
  unfold loop_body batch_eligible
  cases hst : e.st with
  | none => simp
  | some buf =>
    by_cases hreg : S_ISREG buf.st_mode = true
    · cases hscan : sscanf_c_8lx e.d_name with
      | none => simp [hreg]
      | some qc =>
        obtain ⟨queue, ctm⟩ := qc
        by_cases hel : (run_eligible env.now buf.st_mode ctm && isupper queue) = true
        · by_cases hcmp : strcmp b.batch_name e.d_name > 0
          · left
            simp only [hreg, hel, hcmp, decide_True, Bool.and_self, if_true, true_and]
            refine ⟨buf, rfl, ?_⟩
            split_ifs <;> rfl
          · right
            simp only [hreg, hel, hcmp, decide_False, Bool.and_false, if_true, Bool.false_eq_true,
              if_false, Bool.true_and]
            refine ⟨?_, fun _ => by omega⟩
            split_ifs <;> rfl
        · right
          have hel2 : (run_eligible env.now buf.st_mode ctm && isupper queue) = false := by
            simpa using hel
          simp only [hreg, hel2, Bool.false_and, if_true, Bool.false_eq_true, if_false,
            Bool.true_and]
          refine ⟨?_, fun h => by simp at h⟩
          split_ifs <;> rfl
    · simp [hreg]

/-- The batch variables after the whole loop, when it ran to its end and the names of
the run-eligible deferred jobs fit in `batch_name`: they are the initial ones, or
those of a run-eligible deferred job whose name is below the initial one; and no
run-eligible deferred job has a name below the final one. -/
theorem scan_loop_batch (debug : Nat) (env : MainEnv) (es : List DirEntry) (b : Batch)
    (halive : (scan_loop debug env es b).alive = true)
    (hlen : ∀ e ∈ es, batch_eligible env.now e = true → e.d_name.length < BATCH_NAME_SIZE) :
    ((scan_loop debug env es b).batch = b ∨
      (strcmp (scan_loop debug env es b).batch.batch_name b.batch_name < 0 ∧
        ∃ e ∈ es, ∃ buf, e.st = some buf ∧ batch_eligible env.now e = true ∧
          (scan_loop debug env es b).batch = ⟨true, e.d_name, buf.st_uid, buf.st_gid⟩)) ∧
    (∀ t ∈ es, batch_eligible env.now t = true →
      strcmp (scan_loop debug env es b).batch.batch_name t.d_name ≤ 0) := by
  induction es generalizing b with
  | nil => simp [scan_loop]
  | cons e es ih =>
    simp only [scan_loop] at halive ⊢
    by_cases ha : (loop_body debug env b e).alive = true
    · simp only [ha, if_true] at halive ⊢
      have hlen2 : ∀ t ∈ es, batch_eligible env.now t = true →
          t.d_name.length < BATCH_NAME_SIZE :=
        fun t ht => hlen t (List.mem_cons_of_mem _ ht)
      obtain ⟨ih1, ih2⟩ := ih (loop_body debug env b e).batch halive hlen2
      rcases loop_body_batch debug env b e with ⟨hel, hcmp, buf, hst, hb⟩ | ⟨hb, hle⟩
      · have hcopy : strncpy_batch e.d_name = e.d_name := by
          unfold strncpy_batch
          exact List.take_of_length_le (Nat.le_of_lt (hlen e (List.mem_cons_self _ _) hel))
        rw [hcopy] at hb
        have heb : strcmp e.d_name b.batch_name < 0 := by
          rw [strcmp_swap]; omega
        have hname : (loop_body debug env b e).batch.batch_name = e.d_name := by rw [hb]
        refine ⟨Or.inr ?_, ?_⟩
        · rcases ih1 with h | ⟨h1, t, ht, bt, h2, h3, h4⟩
          · rw [h]
            exact ⟨by rw [hname]; exact heb, e, List.mem_cons_self _ _, buf, hst, hel, hb⟩
          · refine ⟨strcmp_lt_trans _ _ _ (by rw [hname] at h1; exact h1) heb, t,
              List.mem_cons_of_mem _ ht, bt, h2, h3, h4⟩
        · intro t ht helt
          rcases List.mem_cons.1 ht with h | h
          · subst h
            rcases ih1 with h | ⟨h1, _⟩
            · rw [h, hname, strcmp_self]
            · rw [hname] at h1; omega
          · exact ih2 t h helt
      · rw [hb] at ih1 ih2
        rw [hb]
        refine ⟨?_, ?_⟩
        · rcases ih1 with h | ⟨h1, t, ht, bt, h2, h3, h4⟩
          · exact Or.inl h
          · exact Or.inr ⟨h1, t, List.mem_cons_of_mem _ ht, bt, h2, h3, h4⟩
        · intro t ht helt
          rcases List.mem_cons.1 ht with h | h
          · subst h
            rcases ih1 with h | ⟨h1, _⟩
            · rw [h]; exact hle helt
            · exact strcmp_lt_le _ _ _ h1 (hle helt)
          · exact ih2 t h helt
    · simp only [ha, if_false] at halive
      exact absurd halive ha

theorem claims_touches (name : List Char) (op : Op) (h : claims name op = true) :
    touches name op = true := by
  unfold claims at h
  unfold touches
  split at h <;> simp_all

theorem run_file_parent_claims (debug : Nat) (c k : Bool) (f : List Char) (u g : Nat) :
    ∀ op ∈ (run_file_parent debug c k f u g).1, ∀ name, claims name op = true → name = f := by
  intro op hop name hn
  exact (run_file_parent_touch debug c k f u g op hop).2 name (claims_touches name op hn)

theorem loop_body_claims (debug : Nat) (env : MainEnv) (b : Batch) (e : DirEntry) :
    ∀ op ∈ (loop_body debug env b e).ops, ∀ name, claims name op = true →
      islower (queue_of name) = true := by
  unfold loop_body
  cases hst : e.st with
  | none =>
    unfold perr
    simp [claims]
    split_ifs <;> simp [claims]
  | some buf =>
    by_cases hreg : S_ISREG buf.st_mode = true
    · cases hscan : sscanf_c_8lx e.d_name with
      | none => simp [hreg, claims]
      | some qc =>
        obtain ⟨queue, ctm⟩ := qc
        have hqo := queue_of_sscanf e.d_name queue ctm hscan
        simp only [hreg, if_true]
        by_cases hq : (run_eligible env.now buf.st_mode ctm && islower queue) = true
        · have hq2 : run_eligible env.now buf.st_mode ctm = true ∧ islower queue = true := by
            simpa using hq
          have hp := run_file_parent_claims debug (env.chmod_ok e.d_name)
            (env.fork_ok e.d_name) e.d_name buf.st_uid buf.st_gid
          simp only [hq, if_true]
          intro op hop name hn
          have hop2 : op = Op.call (Call.stat e.d_name) true ∨
              op ∈ (run_file_parent debug (env.chmod_ok e.d_name) (env.fork_ok e.d_name)
                e.d_name buf.st_uid buf.st_gid).1 ∨
              op = Op.call (Call.unlink e.d_name) (env.unlink_ok e.d_name) := by
            split_ifs at hop <;> simp at hop <;> tauto
          rcases hop2 with h | h | h
          · subst h; simp [claims] at hn
          · rw [hp op h name hn, hqo]; exact hq2.2
          · subst h; simp [claims] at hn
        · have hq3 : (run_eligible env.now buf.st_mode ctm && islower queue) = false := by
            simpa using hq
          simp only [hq3, Bool.false_eq_true, if_false, if_true]
          intro op hop name hn
          have hop2 : op = Op.call (Call.stat e.d_name) true ∨
              op = Op.call (Call.unlink e.d_name) (env.unlink_ok e.d_name) := by
            split_ifs at hop <;> simp at hop <;> tauto
          rcases hop2 with h | h <;> subst h <;> simp [claims] at hn
    · simp [hreg, claims]

theorem scan_loop_claims (debug : Nat) (env : MainEnv) (es : List DirEntry) (b : Batch) :
    ∀ op ∈ (scan_loop debug env es b).ops, ∀ name, claims name op = true →
      islower (queue_of name) = true := by
  induction es generalizing b with
  | nil => simp [scan_loop]
  | cons e es ih =>
    intro op hop
    simp only [scan_loop] at hop
    split_ifs at hop with halive
    · simp only [List.mem_append] at hop
      rcases hop with h | h
      · exact loop_body_claims debug env b e op h
      · exact ih _ op h
    · exact loop_body_claims debug env b e op hop

theorem perr_touch (debug : Nat) (msg : String) :
    ∀ op ∈ perr debug msg, ∀ name, touches name op = false := by
  unfold perr
  intro op hop name
  split_ifs at hop <;> simp at hop <;> rcases hop with h | h <;> subst h <;> rfl

theorem parse_opts_error (opts : List Opt) (c : Config) (ops : List Op)
    (h : parse_opts opts c = Except.error ops) : ∃ d msg, ops = perr d msg := by
  induction opts generalizing c with
  | nil => simp [parse_opts] at h
  | cons o os ih =>
    cases o with
    | l arg =>
      cases arg with
      | none =>
        simp only [parse_opts, Except.error.injEq] at h
        exact ⟨_, _, h.symm⟩
      | some v =>
        simp only [parse_opts] at h
        exact ih _ h
    | d =>
      simp only [parse_opts] at h
      exact ih _ h
    | unknown =>
      simp only [parse_opts, Except.error.injEq] at h
      exact ⟨_, _, h.symm⟩
    | other =>
      simp only [parse_opts, Except.error.injEq] at h
      exact ⟨_, _, h.symm⟩

/-- The operations of `main` when the options are accepted and the spool directory is
entered and opened: the five opening calls, the operations of the scan loop and, when
the loop ran to its end, those of the batch stage. -/
theorem main_scanned (opts : List Opt) (env : MainEnv) (cfg : Config)
    (entries : List DirEntry) (hopts : parse_opts opts ⟨LOADAVG_MX, 0⟩ = Except.ok cfg)
    (hchdir : env.chdir_ok = true) (hspool : env.spool = some entries) :
    main opts env = [Op.call Call.relinquish_privs_root true, Op.call Call.openlog true,
      Op.call (Call.chdir ATJOB_DIR) true, Op.call Call.opendir true, Op.call Call.time true]
      ++ ((scan_loop cfg.debug env entries Batch.init).ops
      ++ (if (scan_loop cfg.debug env entries Batch.init).alive = true
          then run_batch_job cfg env (scan_loop cfg.debug env entries Batch.init).batch
          else [])) := by
  unfold main
  simp only [hopts, hchdir, hspool, if_true]
  split_ifs <;> simp

/-- The operations of `main` either stop at a `perr` before the scan, touching no file,
or consist of the five opening calls, the operations of the scan loop and, when the
loop ran to its end, those of the batch stage. -/
theorem main_cases (opts : List Opt) (env : MainEnv) :
    (∀ op ∈ main opts env, ∀ name, touches name op = false) ∨
    (∃ cfg entries, parse_opts opts ⟨LOADAVG_MX, 0⟩ = Except.ok cfg ∧ env.chdir_ok = true ∧
      env.spool = some entries ∧
      main opts env = [Op.call Call.relinquish_privs_root true, Op.call Call.openlog true,
        Op.call (Call.chdir ATJOB_DIR) true, Op.call Call.opendir true, Op.call Call.time true]
        ++ ((scan_loop cfg.debug env entries Batch.init).ops
        ++ (if (scan_loop cfg.debug env entries Batch.init).alive = true
            then run_batch_job cfg env (scan_loop cfg.debug env entries Batch.init).batch
            else []))) := by
  unfold main
  cases hp : parse_opts opts ⟨LOADAVG_MX, 0⟩ with
  | error ops =>
    left
    obtain ⟨d, msg, rfl⟩ := parse_opts_error _ _ _ hp
    intro op hop name
    simp only [List.mem_cons] at hop
    rcases hop with h | h | h
    · subst h; rfl
    · subst h; rfl
    · exact perr_touch d msg op h name
  | ok cfg =>
    by_cases hc : env.chdir_ok = true
    · cases hs : env.spool with
      | none =>
        left
        intro op hop name
        simp only [hc, if_true, List.mem_cons] at hop
        rcases hop with h | h | h | h | h
        · subst h; rfl
        · subst h; rfl
        · subst h; rfl
        · subst h; rfl
        · exact perr_touch _ _ op h name
      | some entries =>
        right
        refine ⟨cfg, entries, rfl, hc, rfl, ?_⟩
        simp only [hc, if_true]
        split_ifs <;> simp
    · left
      intro op hop name
      simp only [hc, Bool.false_eq_true, if_false, List.mem_cons] at hop
      rcases hop with h | h | h | h
      · subst h; rfl
      · subst h; rfl
      · subst h; rfl
      · exact perr_touch _ _ op h name

/-- The batch stage touches a file only when a candidate was chosen and the measured
load is below the threshold, and then only the candidate. -/
theorem run_batch_job_touch (cfg : Config) (env : MainEnv) (b : Batch) :
    ∀ op ∈ run_batch_job cfg env b, ∀ name, touches name op = true →
      b.run_batch = true ∧ name = b.batch_name ∧
        ∃ la, env.loadavg = some la ∧ Dbl.lt la cfg.load_avg = true := by
  unfold run_batch_job
  intro op hop name hn
  by_cases hb : b.run_batch = true
  · simp only [hb, if_true] at hop
    cases hl : env.loadavg with
    | none =>
      simp only [hl, List.mem_cons] at hop
      rcases hop with h | h
      · subst h; simp [touches] at hn
      · rw [perr_touch _ _ op h name] at hn; simp at hn
    | some la =>
      simp only [hl] at hop
      by_cases hlt : Dbl.lt la cfg.load_avg = true
      · simp only [hlt, if_true] at hop
        have hop2 : op = Op.call Call.getloadavg true ∨
            op ∈ (run_file_parent cfg.debug (env.chmod_ok b.batch_name)
              (env.fork_ok b.batch_name) b.batch_name b.batch_uid b.batch_gid).1 ∨
            op = Op.call Call.closelog true ∨ op = Op.exit EXIT_SUCCESS := by
          split_ifs at hop <;> simp at hop <;> tauto
        rcases hop2 with h | h | h | h
        · subst h; simp [touches] at hn
        · exact ⟨hb, (run_file_parent_touch _ _ _ _ _ _ op h).2 name hn, la, rfl, hlt⟩
        · subst h; simp [touches] at hn
        · subst h; simp [touches] at hn
      · simp only [hlt, Bool.false_eq_true, if_false] at hop
        simp only [List.mem_cons, List.mem_singleton, List.not_mem_nil, or_false] at hop
        rcases hop with h | h | h <;> subst h <;> simp [touches] at hn
  · simp only [hb, Bool.false_eq_true, if_false] at hop
    simp only [List.mem_cons, List.mem_singleton, List.not_mem_nil, or_false] at hop
    rcases hop with h | h <;> subst h <;> simp [touches] at hn

theorem touches_run_file (f : List Char) (u g : Nat) :
    touches f (Op.run_file f u g) = true := by
  simp [touches]

theorem opening_touch (op : Op)
    (h : op ∈ [Op.call Call.relinquish_privs_root true, Op.call Call.openlog true,
      Op.call (Call.chdir ATJOB_DIR) true, Op.call Call.opendir true, Op.call Call.time true])
    (name : List Char) : touches name op = false ∧ is_batch_call op = false := by
  simp only [List.mem_cons, List.mem_singleton, List.not_mem_nil, or_false] at h
  rcases h with h | h | h | h | h <;> subst h <;> exact ⟨rfl, rfl⟩

/-- Every call of `run_file` on a file of a deferred queue is the one of the batch
stage: the loop ran to its end, a candidate was chosen, its name is the argument, and
the measured load is below the threshold. -/
theorem main_batch_call (opts : List Opt) (env : MainEnv) (f : List Char) (u g : Nat)
    (hcall : Op.run_file f u g ∈ main opts env) (hup : isupper (queue_of f) = true) :
    ∃ cfg entries la, parse_opts opts ⟨LOADAVG_MX, 0⟩ = Except.ok cfg ∧
      env.spool = some entries ∧ (scan_loop cfg.debug env entries Batch.init).alive = true ∧
      (scan_loop cfg.debug env entries Batch.init).batch.run_batch = true ∧
      f = (scan_loop cfg.debug env entries Batch.init).batch.batch_name ∧
      env.loadavg = some la ∧ Dbl.lt la cfg.load_avg = true := by
  rcases main_cases opts env with h | ⟨cfg, entries, hp, _, hs, hm⟩
  · have := h _ hcall f
    rw [touches_run_file] at this
    simp at this
  · rw [hm] at hcall
    simp only [List.mem_append] at hcall
    rcases hcall with h | h | h
    · have := (opening_touch _ h f).1
      rw [touches_run_file] at this
      simp at this
    · have := (scan_loop_touch cfg.debug env entries Batch.init _ h).1
      simp [is_batch_call, hup] at this
    · by_cases ha : (scan_loop cfg.debug env entries Batch.init).alive = true
      · simp only [ha, if_true] at h
        obtain ⟨h1, h2, la, h3, h4⟩ :=
          run_batch_job_touch cfg env _ _ h f (touches_run_file f u g)
        exact ⟨cfg, entries, la, hp, hs, ha, h1, h2, h3, h4⟩
      · simp only [ha, Bool.false_eq_true, if_false, List.not_mem_nil] at h

theorem parse_opts_no_l (opts : List Opt) (c cfg : Config)
    (hno : ∀ v, Opt.l v ∉ opts) (h : parse_opts opts c = Except.ok cfg) :
    cfg.load_avg = c.load_avg := by
  induction opts generalizing c with
  | nil =>
    simp only [parse_opts, Except.ok.injEq] at h
    rw [h]
  | cons o os ih =>
    have hno2 : ∀ v, Opt.l v ∉ os := fun v hv => hno v (List.mem_cons_of_mem _ hv)
    cases o with
    | l arg => exact absurd (List.mem_cons_self _ _) (hno arg)
    | d =>
      simp only [parse_opts] at h
      exact ih ⟨c.load_avg, c.debug + 1⟩ hno2 h
    | unknown => simp [parse_opts] at h
    | other => simp [parse_opts] at h

theorem parse_opts_last_l (pre post : List Opt) (v : Dbl) (c cfg : Config)
    (hno : ∀ w, Opt.l w ∉ post)
    (h : parse_opts (pre ++ Opt.l (some v) :: post) c = Except.ok cfg) :
    cfg.load_avg = if Dbl.le v (Dbl.fin 0) = true then LOADAVG_MX else v := by
  induction pre generalizing c with
  | nil =>
    simp only [List.nil_append, parse_opts] at h
    have := parse_opts_no_l post _ cfg hno h
    simpa using this
  | cons o os ih =>
    cases o with
    | l arg =>
      cases arg with
      | none => simp [parse_opts] at h
      | some w =>
        simp only [List.cons_append, parse_opts] at h
        exact ih _ h
    | d =>
      simp only [List.cons_append, parse_opts] at h
      exact ih _ h
    | unknown => simp [parse_opts] at h
    | other => simp [parse_opts] at h

/-- The threshold `LOADAVG_MX` is the double 1.5. -/
theorem LOADAVG_MX_value : LOADAVG_MX = Dbl.fin (3 / 2) := by
  unfold LOADAVG_MX
  congr 1
  apply Rat.ext <;> norm_num

theorem Dbl.le_false_of_pos (v : Dbl) (h : Dbl.lt (Dbl.fin 0) v = true) :
    Dbl.le v (Dbl.fin 0) = false := by
  cases v <;> simp_all [Dbl.lt, Dbl.le]

theorem Dbl.lt_false_of_le (a b : Dbl) (h : Dbl.le b a = true) : Dbl.lt a b = false := by
  cases a <;> cases b <;> simp_all [Dbl.lt, Dbl.le]

/-! ## The scan loop on one entry: claims C1, C7, C9 -/

/-- C1: for a regular spool entry whose name `sscanf` converts into a lower-case queue
character and the number `m`, the loop body calls `run_file` on the entry (with the
owner and group of the file) if and only if the owner-execute bit is set and
`m * 60 <= now`, equality included.  The first part reads `m` as the program does, as a
`time_t`; the second is the same statement for the value of up to eight hexadecimal
digits, where the two readings agree. -/
theorem C1_immediate_run_iff (debug : Nat) (env : MainEnv) (b : Batch) (e : DirEntry)
    (buf : Stat) (queue : Char) (m : Nat)
    (hst : e.st = some buf) (hreg : S_ISREG buf.st_mode = true)
    (hscan : sscanf_c_8lx e.d_name = some (queue, m)) (hq : islower queue = true) :
    (Op.run_file e.d_name buf.st_uid buf.st_gid ∈ (loop_body debug env b e).ops ↔
      (S_IXUSR &&& buf.st_mode ≠ 0 ∧ to_time_t m * 60 ≤ env.now)) ∧
    (m < 4294967296 →
      (Op.run_file e.d_name buf.st_uid buf.st_gid ∈ (loop_body debug env b e).ops ↔
        (S_IXUSR &&& buf.st_mode ≠ 0 ∧ (m : Int) * 60 ≤ env.now))) := by
  have key : Op.run_file e.d_name buf.st_uid buf.st_gid ∈ (loop_body debug env b e).ops ↔
      (S_IXUSR &&& buf.st_mode ≠ 0 ∧ to_time_t m * 60 ≤ env.now) := by
    rw [(loop_body_ops debug env b e buf queue m hst hreg hscan).1]
    unfold run_eligible
    rw [run_time_of_sscanf e.d_name queue m hscan]
    simp [hq]
  refine ⟨key, fun hm => ?_⟩
  rw [key, to_time_t_small m hm]

/-- C1, at a concrete input: the job `a0000000a.001` (minute 10, execute bit set) is
run when `now` is exactly 600. -/
theorem C1_immediate_run_iff_witness :
    (file "a0000000a.001" 0o700).st = some ⟨S_IFREG ||| 0o700, 1000, 100⟩ ∧
    S_ISREG (S_IFREG ||| 0o700) = true ∧
    sscanf_c_8lx (file "a0000000a.001" 0o700).d_name = some ('a', 10) ∧
    islower 'a' = true ∧
    Op.run_file "a0000000a.001".toList 1000 100
      ∈ (loop_body 0 (calm 600 [] LOADAVG_MX) Batch.init (file "a0000000a.001" 0o700)).ops :=
  ⟨rfl, by decide, by decide, by decide,
    ((C1_immediate_run_iff 0 (calm 600 [] LOADAVG_MX) Batch.init (file "a0000000a.001" 0o700)
      ⟨S_IFREG ||| 0o700, 1000, 100⟩ 'a' 10 rfl (by decide) (by decide) (by decide)).2
        (by decide)).2 ⟨by decide, by decide⟩⟩

/-- C7: for a regular spool entry whose name `sscanf` converts with the number `m`, the
loop body unlinks the entry if and only if the owner-execute bit is clear, the
owner-read bit is set and `m * 60 < now`, strictly; a completed file with
`m * 60 = now` is neither unlinked nor passed to `run_file`, and leaves the batch
variables as they are.  The first part reads `m` as a `time_t`, the second as the value
of up to eight hexadecimal digits. -/
theorem C7_unlink_iff (debug : Nat) (env : MainEnv) (b : Batch) (e : DirEntry)
    (buf : Stat) (queue : Char) (m : Nat)
    (hst : e.st = some buf) (hreg : S_ISREG buf.st_mode = true)
    (hscan : sscanf_c_8lx e.d_name = some (queue, m)) :
    ((∃ ok, Op.call (Call.unlink e.d_name) ok ∈ (loop_body debug env b e).ops) ↔
      (S_IXUSR &&& buf.st_mode = 0 ∧ S_IRUSR &&& buf.st_mode ≠ 0
        ∧ to_time_t m * 60 < env.now)) ∧
    (m < 4294967296 →
      ((∃ ok, Op.call (Call.unlink e.d_name) ok ∈ (loop_body debug env b e).ops) ↔
        (S_IXUSR &&& buf.st_mode = 0 ∧ S_IRUSR &&& buf.st_mode ≠ 0
          ∧ (m : Int) * 60 < env.now)) ∧
      (S_IXUSR &&& buf.st_mode = 0 → S_IRUSR &&& buf.st_mode ≠ 0 → (m : Int) * 60 = env.now →
        (∀ x ok, Op.call (Call.unlink x) ok ∉ (loop_body debug env b e).ops) ∧
        (∀ f u g, Op.run_file f u g ∉ (loop_body debug env b e).ops) ∧
        (loop_body debug env b e).batch = b)) := by
  have hops := loop_body_ops debug env b e buf queue m hst hreg hscan
  have hrt := run_time_of_sscanf e.d_name queue m hscan
  have key : (∃ ok, Op.call (Call.unlink e.d_name) ok ∈ (loop_body debug env b e).ops) ↔
      (S_IXUSR &&& buf.st_mode = 0 ∧ S_IRUSR &&& buf.st_mode ≠ 0
        ∧ to_time_t m * 60 < env.now) := by
    simp only [hops.2]
    unfold delete_eligible
    rw [hrt]
    simp
    tauto
  refine ⟨key, fun hm => ⟨?_, ?_⟩⟩
  · rw [key, to_time_t_small m hm]
  · intro hx hr heq
    have hnd : delete_eligible env.now buf.st_mode m = false := by
      unfold delete_eligible
      rw [hrt, to_time_t_small m hm]
      simp
      omega
    have hnr : run_eligible env.now buf.st_mode m = false := by
      unfold run_eligible
      simp [hx]
    refine ⟨fun x ok hmem => ?_, fun f u g hmem => ?_, ?_⟩
    · have := (hops.2 x ok).1 hmem
      simp [hnd] at this
    · have := (hops.1 f u g).1 hmem
      simp [hnr] at this
    · unfold loop_body
      simp [hst, hreg, hscan, hnr, hnd]

/-- C7, at a concrete input: the completed file `a0000000a.001` (minute 10, read bit
only) is unlinked when `now` is 601. -/
theorem C7_unlink_iff_witness :
    (file "a0000000a.001" 0o400).st = some ⟨S_IFREG ||| 0o400, 1000, 100⟩ ∧
    S_ISREG (S_IFREG ||| 0o400) = true ∧
    sscanf_c_8lx (file "a0000000a.001" 0o400).d_name = some ('a', 10) ∧
    ∃ ok, Op.call (Call.unlink (file "a0000000a.001" 0o400).d_name) ok
      ∈ (loop_body 0 (calm 601 [] LOADAVG_MX) Batch.init (file "a0000000a.001" 0o400)).ops :=
  ⟨rfl, by decide, by decide,
    ((C7_unlink_iff 0 (calm 601 [] LOADAVG_MX) Batch.init (file "a0000000a.001" 0o400)
      ⟨S_IFREG ||| 0o400, 1000, 100⟩ 'a' 10 rfl (by decide) (by decide)).2
        (by decide)).1.2 ⟨by decide, by decide, by decide⟩⟩

/-- C9, as stated, fails: names that do not have eight hexadecimal digits after the
first character are still converted by `%c%8lx`.  `a1` (one digit) is passed to
`run_file`; `a-1` (a sign) is unlinked once completed; `B 1f` (a leading blank) becomes
the batch candidate; `c0x2` (a `0x`) is passed to `run_file`. -/
theorem C9_loose_names_are_jobs :
    has_timestamp_form "a1".toList = false ∧
    Op.run_file "a1".toList 1000 100
      ∈ (loop_body 0 (calm 1000 [] LOADAVG_MX) Batch.init (file "a1" 0o700)).ops ∧
    has_timestamp_form "a-1".toList = false ∧
    Op.call (Call.unlink "a-1".toList) true
      ∈ (loop_body 0 (calm 1000 [] LOADAVG_MX) Batch.init (file "a-1" 0o400)).ops ∧
    has_timestamp_form "B 1f".toList = false ∧
    (loop_body 0 (calm 2000 [] LOADAVG_MX) Batch.init (file "B 1f" 0o700)).batch
      = ⟨true, "B 1f".toList, 1000, 100⟩ ∧
    has_timestamp_form "c0x2".toList = false ∧
    Op.run_file "c0x2".toList 1000 100
      ∈ (loop_body 0 (calm 1000 [] LOADAVG_MX) Batch.init (file "c0x2" 0o700)).ops := by
  decide

/-- C9, amended: an entry whose name `sscanf(d_name, "%c%8lx", ...)` does not convert
into two items is inert, whatever its mode bits and whatever `now`: the loop body does
not pass it to `run_file`, does not unlink it, changes no mode, and leaves the batch
variables as they are. -/
theorem C9_unparsed_inert (debug : Nat) (env : MainEnv) (b : Batch) (e : DirEntry)
    (h : sscanf_c_8lx e.d_name = none) :
    (loop_body debug env b e).batch = b ∧
    (∀ f u g, Op.run_file f u g ∉ (loop_body debug env b e).ops) ∧
    (∀ x ok, Op.call (Call.unlink x) ok ∉ (loop_body debug env b e).ops) ∧
    (∀ x mode ok, Op.call (Call.chmod x mode) ok ∉ (loop_body debug env b e).ops) := by
  unfold loop_body perr
  cases hst : e.st with
  | none => simp; split_ifs <;> simp
  | some buf =>
    by_cases hreg : S_ISREG buf.st_mode = true
    · simp [hreg, h]
    · simp [hreg]

/-- C9 amended, at a concrete input: the name `a.out` has no digit after its first
character; with every permission bit set it is left alone. -/
theorem C9_unparsed_inert_witness :
    sscanf_c_8lx (file "a.out" 0o777).d_name = none ∧
    (loop_body 0 (calm 1000 [] LOADAVG_MX) Batch.init (file "a.out" 0o777)).batch = Batch.init ∧
    (∀ f u g, Op.run_file f u g
      ∉ (loop_body 0 (calm 1000 [] LOADAVG_MX) Batch.init (file "a.out" 0o777)).ops) :=
  ⟨by decide,
    (C9_unparsed_inert 0 (calm 1000 [] LOADAVG_MX) Batch.init (file "a.out" 0o777) (by decide)).1,
    (C9_unparsed_inert 0 (calm 1000 [] LOADAVG_MX) Batch.init (file "a.out" 0o777) (by decide)).2.1⟩

/-! ## The load gate: claim C6 -/

/-- C6: the threshold `load_avg` is `LOADAVG_MX` (1.5) when no `-l` is given, the value
of the last `-l` when that value is positive, and `LOADAVG_MX` when it is `<= 0`; a
file of a deferred queue is passed to `run_file` only when the load average was
obtained and is strictly below the threshold; and when the measured load is at or
above the threshold, no file of a deferred queue is passed to `run_file` or has its
mode changed anywhere in the run of `main`. -/
theorem C6_load_gate (opts : List Opt) (env : MainEnv) :
    (∀ cfg, parse_opts opts ⟨LOADAVG_MX, 0⟩ = Except.ok cfg →
      ((∀ v, Opt.l v ∉ opts) → cfg.load_avg = LOADAVG_MX) ∧
      (∀ pre v post, opts = pre ++ Opt.l (some v) :: post → (∀ w, Opt.l w ∉ post) →
        (Dbl.lt (Dbl.fin 0) v = true → cfg.load_avg = v) ∧
        (Dbl.le v (Dbl.fin 0) = true → cfg.load_avg = LOADAVG_MX))) ∧
    (∀ f u g, Op.run_file f u g ∈ main opts env → isupper (queue_of f) = true →
      ∃ cfg la, parse_opts opts ⟨LOADAVG_MX, 0⟩ = Except.ok cfg ∧
        env.loadavg = some la ∧ Dbl.lt la cfg.load_avg = true) ∧
    (∀ cfg la, parse_opts opts ⟨LOADAVG_MX, 0⟩ = Except.ok cfg → env.loadavg = some la →
      Dbl.le cfg.load_avg la = true →
      ∀ op ∈ main opts env, ∀ name, isupper (queue_of name) = true →
        claims name op = false) := by
  refine ⟨fun cfg hp => ⟨fun hno => parse_opts_no_l opts _ cfg hno hp, ?_⟩, ?_, ?_⟩
  · intro pre v post hopts hno
    rw [hopts] at hp
    have hl := parse_opts_last_l pre post v _ cfg hno hp
    refine ⟨fun hpos => ?_, fun hle => ?_⟩
    · rw [hl, Dbl.le_false_of_pos v hpos]; simp
    · rw [hl, hle]; simp
  · intro f u g hcall hup
    obtain ⟨cfg, entries, la, hp, _, _, _, _, hl, hlt⟩ := main_batch_call opts env f u g hcall hup
    exact ⟨cfg, la, hp, hl, hlt⟩
  · intro cfg la hp hl hle op hop name hup
    cases hc : claims name op with
    | false => rfl
    | true =>
      exfalso
      have ht := claims_touches name op hc
      rcases main_cases opts env with h | ⟨cfg2, entries, hp2, _, hs, hm⟩
      · rw [h op hop name] at ht; simp at ht
      · rw [hp] at hp2
        simp only [Except.ok.injEq] at hp2
        subst hp2
        rw [hm] at hop
        simp only [List.mem_append] at hop
        rcases hop with h | h | h
        · rw [(opening_touch _ h name).1] at ht; simp at ht
        · have := scan_loop_claims cfg.debug env entries Batch.init op h name hc
          rw [islower_not_isupper _ this] at hup
          simp at hup
        · by_cases ha : (scan_loop cfg.debug env entries Batch.init).alive = true
          · simp only [ha, if_true] at h
            obtain ⟨_, _, la2, h3, h4⟩ := run_batch_job_touch cfg env _ _ h name ht
            rw [hl] at h3
            simp only [Option.some.injEq] at h3
            subst h3
            rw [Dbl.lt_false_of_le _ _ hle] at h4
            simp at h4
          · simp only [ha, Bool.false_eq_true, if_false, List.not_mem_nil] at h

/-- C6, at a concrete input: with `-l 2` and a measured load of 1 the batch job
`B00000002.001` is passed to `run_file`, and the load is below the threshold 2. -/
theorem C6_load_gate_witness :
    Op.run_file "B00000002.001".toList 1000 100
      ∈ main [Opt.l (some (Dbl.fin 2))]
          (calm 1000 [file "B00000002.001" 0o700] (Dbl.fin 1)) ∧
    isupper (queue_of "B00000002.001".toList) = true ∧
    ∃ cfg la, parse_opts [Opt.l (some (Dbl.fin 2))] ⟨LOADAVG_MX, 0⟩ = Except.ok cfg ∧
      (calm 1000 [file "B00000002.001" 0o700] (Dbl.fin 1)).loadavg = some la ∧
      Dbl.lt la cfg.load_avg = true :=
  ⟨by decide, by decide,
    (C6_load_gate [Opt.l (some (Dbl.fin 2))]
      (calm 1000 [file "B00000002.001" 0o700] (Dbl.fin 1))).2.1
        "B00000002.001".toList 1000 100 (by decide) (by decide)⟩

/-! ## The choice of the batch job: claims C5 and C10 -/

theorem batch_eligible_upper (now : Int) (e : DirEntry) (h : batch_eligible now e = true) :
    isupper (queue_of e.d_name) = true := by
  unfold batch_eligible at h
  cases hst : e.st with
  | none => simp [hst] at h
  | some buf =>
    cases hscan : sscanf_c_8lx e.d_name with
    | none => simp [hst, hscan] at h
    | some qc =>
      obtain ⟨queue, ctm⟩ := qc
      simp only [hst, hscan, Bool.and_eq_true] at h
      rw [queue_of_sscanf e.d_name queue ctm hscan]
      exact h.2.2

theorem run_file_parent_filter (debug : Nat) (c k : Bool) (f : List Char) (u g : Nat)
    (hup : isupper (queue_of f) = true) :
    (run_file_parent debug c k f u g).1.filter is_batch_call = [Op.run_file f u g] := by
  unfold run_file_parent perr
  cases c <;> cases k <;> simp [is_batch_call, hup, List.filter] <;> split_ifs <;>
    simp [is_batch_call]

theorem run_batch_job_filter (cfg : Config) (env : MainEnv) (b : Batch) (la : Dbl)
    (hb : b.run_batch = true) (hl : env.loadavg = some la)
    (hlt : Dbl.lt la cfg.load_avg = true) (hup : isupper (queue_of b.batch_name) = true) :
    (run_batch_job cfg env b).filter is_batch_call
      = [Op.run_file b.batch_name b.batch_uid b.batch_gid] := by
  unfold run_batch_job
  simp only [hb, hl, hlt, if_true]
  have hf := run_file_parent_filter cfg.debug (env.chmod_ok b.batch_name)
    (env.fork_ok b.batch_name) b.batch_name b.batch_uid b.batch_gid hup
  split_ifs
  · rw [List.cons_append, List.filter_cons, List.filter_append, hf]
    simp [is_batch_call]
  · rw [List.filter_cons, hf]
    simp [is_batch_call]

/-- C5 fails on the code: two run-eligible jobs of the deferred queue `Z` whose names are
not below the initial `batch_name`, `Z2345678901234`, are never chosen, so `run_file`
is called for no batch job although the load is below the threshold.  This happens for
names as `at` writes them with a timestamp from `0x23456789` on, and for short names
such as `Z3`. -/
theorem C5_sentinel_hides_jobs :
    batch_eligible 48318382140 (file "Z30000000.001" 0o700) = true ∧
    batch_eligible 48318382140 (file "Z30000001.001" 0o700) = true ∧
    Dbl.lt (Dbl.fin 1) LOADAVG_MX = true ∧
    (main [] (calm 48318382140
      [file "Z30000000.001" 0o700, file "Z30000001.001" 0o700] (Dbl.fin 1))).filter
        is_batch_call = [] ∧
    batch_eligible 1000 (file "Z3" 0o700) = true ∧
    batch_eligible 1000 (file "Z4" 0o700) = true ∧
    (main [] (calm 1000 [file "Z3" 0o700, file "Z4" 0o700] (Dbl.fin 1))).filter
        is_batch_call = [] := by
  decide

/-- The batch stage away from the initial `batch_name`: when the scan runs to its end,
the entries have distinct names, the names of the run-eligible deferred jobs fit in
`batch_name`, at least one of them is below the initial `batch_name` in `strcmp` order,
and the measured load is below the threshold, `main` calls `run_file` for a batch job exactly once, on a run-eligible
deferred job whose name is not above that of any other, with the owner and group of
that file; every other run-eligible deferred job is touched by no operation of `main`:
not passed to `run_file`, no `chmod`, no `unlink`. -/
theorem one_batch_job_below_initial (opts : List Opt) (env : MainEnv) (cfg : Config)
    (entries : List DirEntry) (la : Dbl)
    (hopts : parse_opts opts ⟨LOADAVG_MX, 0⟩ = Except.ok cfg)
    (hchdir : env.chdir_ok = true) (hspool : env.spool = some entries)
    (halive : (scan_loop cfg.debug env entries Batch.init).alive = true)
    (hnodup : (entries.map DirEntry.d_name).Nodup)
    (hlen : ∀ e ∈ entries, batch_eligible env.now e = true →
      e.d_name.length < BATCH_NAME_SIZE)
    (hex : ∃ e ∈ entries, batch_eligible env.now e = true ∧
      strcmp Batch.init.batch_name e.d_name > 0)
    (hload : env.loadavg = some la) (hlt : Dbl.lt la cfg.load_avg = true) :
    ∃ e ∈ entries, ∃ buf, e.st = some buf ∧ batch_eligible env.now e = true ∧
      (main opts env).filter is_batch_call = [Op.run_file e.d_name buf.st_uid buf.st_gid] ∧
      (∀ t ∈ entries, batch_eligible env.now t = true → strcmp e.d_name t.d_name ≤ 0) ∧
      (∀ t ∈ entries, batch_eligible env.now t = true → t ≠ e →
        ∀ op ∈ main opts env, touches t.d_name op = false) := by
  obtain ⟨inv1, inv2⟩ := scan_loop_batch cfg.debug env entries Batch.init halive hlen
  obtain ⟨e0, he0, hel0, hcmp0⟩ := hex
  have hchosen : ∃ e ∈ entries, ∃ buf, e.st = some buf ∧ batch_eligible env.now e = true ∧
      (scan_loop cfg.debug env entries Batch.init).batch
        = ⟨true, e.d_name, buf.st_uid, buf.st_gid⟩ := by
    rcases inv1 with h | ⟨_, e, he, buf, h1, h2, h3⟩
    · have := inv2 e0 he0 hel0
      rw [h] at this
      omega
    · exact ⟨e, he, buf, h1, h2, h3⟩
  obtain ⟨e, he, buf, hst, hel, hbatch⟩ := hchosen
  have hinj := List.inj_on_of_nodup_map hnodup
  have hm := main_scanned opts env cfg entries hopts hchdir hspool
  simp only [halive, if_true] at hm
  refine ⟨e, he, buf, hst, hel, ?_, ?_, ?_⟩
  · rw [hm, List.filter_append, List.filter_append]
    have h1 : List.filter is_batch_call
        [Op.call Call.relinquish_privs_root true, Op.call Call.openlog true,
          Op.call (Call.chdir ATJOB_DIR) true, Op.call Call.opendir true,
          Op.call Call.time true] = [] := by
      decide
    have h2 : List.filter is_batch_call (scan_loop cfg.debug env entries Batch.init).ops
        = [] := by
      rw [List.filter_eq_nil_iff]
      intro a ha
      rw [(scan_loop_touch cfg.debug env entries Batch.init a ha).1]
      simp
    have h3 := run_batch_job_filter cfg env (scan_loop cfg.debug env entries Batch.init).batch
      la (by rw [hbatch]) hload hlt (by rw [hbatch]; exact batch_eligible_upper _ _ hel)
    rw [h1, h2, h3, hbatch]
    rfl
  · intro t ht helt
    have := inv2 t ht helt
    rw [hbatch] at this
    exact this
  · intro t ht helt hne op hop
    cases htouch : touches t.d_name op with
    | false => rfl
    | true =>
      exfalso
      rw [hm] at hop
      simp only [List.mem_append] at hop
      rcases hop with h | h | h
      · rw [(opening_touch _ h t.d_name).1] at htouch; simp at htouch
      · obtain ⟨e2, he2, hn2, hel2⟩ :=
          (scan_loop_touch cfg.debug env entries Batch.init op h).2 t.d_name htouch
        have : e2 = t := hinj he2 ht hn2
        rw [this, helt] at hel2
        simp at hel2
      · obtain ⟨_, hname, _⟩ := run_batch_job_touch cfg env _ op h t.d_name htouch
        rw [hbatch] at hname
        exact hne (hinj ht he hname)

theorem hexnum_ge (ds : List Char) (acc : Nat) : acc * 16 ^ ds.length ≤ hexnum acc ds := by
  induction ds generalizing acc with
  | nil => simp [hexnum]
  | cons c cs ih =>
    simp only [hexnum, List.length_cons]
    calc acc * 16 ^ (cs.length + 1) = (acc * 16) * 16 ^ cs.length := by ring
      _ ≤ (acc * 16 + (hexval c).getD 0) * 16 ^ cs.length :=
        Nat.mul_le_mul_right _ (by omega)
      _ ≤ hexnum (acc * 16 + (hexval c).getD 0) cs := ih _

theorem lower_xdigit_facts (c : Char) (h : is_lower_xdigit c = true) :
    isxdigit c = true ∧ isspace c = false ∧ c.toNat ≠ 45 ∧ c.toNat ≠ 43 ∧ c.toNat ≠ 120
      ∧ c.toNat ≠ 88 := by
  unfold is_lower_xdigit at h
  simp only [Bool.or_eq_true, Bool.and_eq_true, decide_eq_true_eq] at h
  unfold isxdigit hexval isspace
  refine ⟨?_, ?_, ?_, ?_, ?_, ?_⟩
  · split_ifs <;> first | rfl | (exfalso; omega)
  · simp only [Bool.or_eq_false_iff, Bool.and_eq_false_imp, beq_eq_false_iff_ne,
      decide_eq_true_eq, decide_eq_false_iff_not]
    omega
  all_goals omega

theorem lower_hexval_lt (x y : Char) (hx : is_lower_xdigit x = true)
    (hy : is_lower_xdigit y = true) (h : x.toNat < y.toNat) :
    (hexval x).getD 0 < (hexval y).getD 0 := by
  unfold is_lower_xdigit at hx hy
  simp only [Bool.or_eq_true, Bool.and_eq_true, decide_eq_true_eq] at hx hy
  unfold hexval
  split_ifs <;> simp <;> omega

/-- For two runs of digits of the same length, written with `0` to `9` and `a` to `f`,
the order of `strcmp` is the order of the numbers they denote. -/
theorem strcmp_digits (da db : List Char) (hlen : da.length = db.length)
    (ha : ∀ c ∈ da, is_lower_xdigit c = true) (hb : ∀ c ∈ db, is_lower_xdigit c = true)
    (sa sb : List Char) (acc : Nat) (h : strcmp (da ++ sa) (db ++ sb) ≤ 0) :
    hexnum acc da ≤ hexnum acc db := by
  induction da generalizing db acc with
  | nil =>
    cases db with
    | nil => exact Nat.le_refl _
    | cons y ys => simp at hlen
  | cons x xs ih =>
    cases db with
    | nil => simp at hlen
    | cons y ys =>
      simp only [List.length_cons, Nat.add_right_cancel_iff] at hlen
      simp only [List.cons_append, strcmp] at h
      simp only [hexnum]
      by_cases hxy : x = y
      · subst hxy
        simp only [if_true] at h
        exact ih ys hlen (fun c hc => ha c (List.mem_cons_of_mem _ hc))
          (fun c hc => hb c (List.mem_cons_of_mem _ hc)) _ h
      · simp only [hxy, if_false] at h
        have hne : x.toNat ≠ y.toNat := by
          intro heq
          exact hxy (Char.ext (UInt32.ext heq))
        have hlt := lower_hexval_lt x y (ha x (List.mem_cons_self _ _))
          (hb y (List.mem_cons_self _ _)) (by omega)
        have h1 := hexnum_lt xs (acc * 16 + (hexval x).getD 0)
        have h2 := hexnum_ge ys (acc * 16 + (hexval y).getD 0)
        rw [← hlen] at h2
        have h3 : (acc * 16 + (hexval x).getD 0 + 1) * 16 ^ xs.length
            ≤ (acc * 16 + (hexval y).getD 0) * 16 ^ xs.length :=
          Nat.mul_le_mul_right _ (by omega)
        omega

/-- A name as `at` writes it is converted into its first character and the number its
eight digits denote. -/
theorem sscanf_at_form (name : List Char) (h : has_at_form name = true) :
    sscanf_c_8lx name = some (queue_of name, hexnum 0 ((name.drop 1).take 8)) := by
  unfold has_at_form at h
  match name, h with
  | q :: c0 :: c1 :: c2 :: c3 :: c4 :: c5 :: c6 :: c7 :: tail, h =>
    simp only [List.take, List.all_cons, List.all_nil, Bool.and_true, Bool.and_eq_true,
      decide_eq_true_eq] at h
    obtain ⟨_, h0, h1, h2, h3, h4, h5, h6, h7⟩ := h
    have f0 := lower_xdigit_facts c0 h0
    have f1 := lower_xdigit_facts c1 h1
    have f2 := lower_xdigit_facts c2 h2
    have f3 := lower_xdigit_facts c3 h3
    have f4 := lower_xdigit_facts c4 h4
    have f5 := lower_xdigit_facts c5 h5
    have f6 := lower_xdigit_facts c6 h6
    have f7 := lower_xdigit_facts c7 h7
    have hv := hexnum_lt [c0, c1, c2, c3, c4, c5, c6, c7] 0
    have hmod : hexnum 0 [c0, c1, c2, c3, c4, c5, c6, c7] % ULONG_MOD
        = hexnum 0 [c0, c1, c2, c3, c4, c5, c6, c7] := by
      apply Nat.mod_eq_of_lt
      unfold ULONG_MOD
      norm_num at hv
      omega
    have hfield : scan_field (c0 :: c1 :: c2 :: c3 :: c4 :: c5 :: c6 :: c7 :: tail)
        = [c0, c1, c2, c3, c4, c5, c6, c7] := by
      simp [scan_field, List.dropWhile, f0.2.1]
    have hdig : scan_digits [c0, c1, c2, c3, c4, c5, c6, c7]
        = [c0, c1, c2, c3, c4, c5, c6, c7] := by
      simp [scan_digits, has_minus, has_plus, strip0x, hexrun, List.takeWhile, f0, f1, f2,
        f3, f4, f5, f6, f7]
    have hminus : has_minus [c0, c1, c2, c3, c4, c5, c6, c7] = false := by
      simp [has_minus, f0]
    simp only [sscanf_c_8lx, scan_8lx, hfield, hdig, hminus, queue_of, List.headD,
      List.drop, List.take, hmod]
    simp

/-- The batch stage at a concrete input: of the two pending jobs `B00000002.001` and
`B00000001.002`, listed in this order, one is run. -/
theorem one_batch_job_example :
    parse_opts [] ⟨LOADAVG_MX, 0⟩ = Except.ok ⟨LOADAVG_MX, 0⟩ ∧
    (calm 1000 two_batch_jobs (Dbl.fin 1)).chdir_ok = true ∧
    (calm 1000 two_batch_jobs (Dbl.fin 1)).spool = some two_batch_jobs ∧
    (scan_loop 0 (calm 1000 two_batch_jobs (Dbl.fin 1)) two_batch_jobs Batch.init).alive = true ∧
    (two_batch_jobs.map DirEntry.d_name).Nodup ∧
    (∀ e ∈ two_batch_jobs, batch_eligible 1000 e = true → e.d_name.length < BATCH_NAME_SIZE) ∧
    (∃ e ∈ two_batch_jobs, batch_eligible 1000 e = true ∧
      strcmp Batch.init.batch_name e.d_name > 0) ∧
    Dbl.lt (Dbl.fin 1) LOADAVG_MX = true ∧
    ∃ e ∈ two_batch_jobs, ∃ buf, e.st = some buf ∧ batch_eligible 1000 e = true ∧
      (main [] (calm 1000 two_batch_jobs (Dbl.fin 1))).filter is_batch_call
        = [Op.run_file e.d_name buf.st_uid buf.st_gid] ∧
      (∀ t ∈ two_batch_jobs, batch_eligible 1000 t = true → strcmp e.d_name t.d_name ≤ 0) ∧
      (∀ t ∈ two_batch_jobs, batch_eligible 1000 t = true → t ≠ e →
        ∀ op ∈ main [] (calm 1000 two_batch_jobs (Dbl.fin 1)), touches t.d_name op = false) :=
  ⟨rfl, rfl, rfl, by decide, by decide, by decide, by decide, by decide,
    one_batch_job_below_initial [] (calm 1000 two_batch_jobs (Dbl.fin 1)) ⟨LOADAVG_MX, 0⟩ two_batch_jobs
      (Dbl.fin 1) rfl rfl rfl (by decide) (by decide) (by decide) (by decide) rfl (by decide)⟩

/-- Among names as `at` writes them, with the same queue character, the order of
`strcmp` is the order of the timestamps. -/
theorem at_form_order (a b : List Char) (ha : has_at_form a = true)
    (hb : has_at_form b = true) (hq : queue_of a = queue_of b) (h : strcmp a b ≤ 0) :
    hexnum 0 ((a.drop 1).take 8) ≤ hexnum 0 ((b.drop 1).take 8) := by
  unfold has_at_form at ha hb
  cases a with
  | nil => simp at ha
  | cons qa ra =>
    cases b with
    | nil => simp at hb
    | cons qb rb =>
      simp only [queue_of, List.headD] at hq
      subst hq
      simp only [strcmp, if_true] at h
      simp only [Bool.and_eq_true, decide_eq_true_eq, List.all_eq_true] at ha hb
      simp only [List.drop, List.take]
      rw [← List.take_append_drop 8 ra, ← List.take_append_drop 8 rb] at h
      refine strcmp_digits _ _ ?_ ha.2 hb.2 _ _ 0 h
      rw [List.length_take, List.length_take]
      omega

/-- C10 fails on the code: the comparison of names puts the queue character first.  Of
the run-eligible jobs `A00000005.001` (minute 5) and `B00000001.001` (minute 1), both of
the form upper-case letter and eight hexadecimal digits, `main` passes the first to
`run_file`, and 5 is not at most 1. -/
theorem C10_queue_letter_first :
    Op.run_file "A00000005.001".toList 1000 100 ∈ main [] (calm 1000 two_queues (Dbl.fin 1)) ∧
    sscanf_c_8lx "A00000005.001".toList = some ('A', 5) ∧
    file "B00000001.001" 0o700 ∈ two_queues ∧
    batch_eligible 1000 (file "B00000001.001" 0o700) = true ∧
    has_timestamp_form "B00000001.001".toList = true ∧
    sscanf_c_8lx "B00000001.001".toList = some ('B', 1) ∧
    ¬ (5 ≤ 1) := by
  decide

/-- The batch job within one queue: whenever `main` passes a batch job to `run_file`,
and the names of the run-eligible deferred jobs fit in `batch_name`, that job is a run-eligible deferred job
of the scan and its name is not above, in `strcmp` order, that of any run-eligible
deferred job; hence, when its name and that of another such job have the form `at`
writes (a letter, eight digits among `0` to `9` and `a` to `f`) with the same queue
letter, its minute-timestamp is at most the other. -/
theorem batch_choice_minimal (opts : List Opt) (env : MainEnv) (entries : List DirEntry)
    (f : List Char) (uid gid : Nat)
    (hspool : env.spool = some entries)
    (hlen : ∀ e ∈ entries, batch_eligible env.now e = true →
      e.d_name.length < BATCH_NAME_SIZE)
    (hcall : Op.run_file f uid gid ∈ main opts env) (hup : isupper (queue_of f) = true) :
    (∃ e ∈ entries, e.d_name = f ∧ batch_eligible env.now e = true) ∧
    ∀ t ∈ entries, batch_eligible env.now t = true →
      strcmp f t.d_name ≤ 0 ∧
      (has_at_form f = true → has_at_form t.d_name = true →
        queue_of f = queue_of t.d_name →
        ∀ qf mf qt mt, sscanf_c_8lx f = some (qf, mf) →
          sscanf_c_8lx t.d_name = some (qt, mt) → mf ≤ mt) := by
  obtain ⟨cfg, entries2, la, hp, hs, ha, hrun, hname, _, _⟩ :=
    main_batch_call opts env f uid gid hcall hup
  rw [hspool] at hs
  simp only [Option.some.injEq] at hs
  subst hs
  obtain ⟨inv1, inv2⟩ := scan_loop_batch cfg.debug env entries Batch.init ha hlen
  refine ⟨?_, fun t ht helt => ⟨?_, ?_⟩⟩
  · rcases inv1 with h | ⟨_, e, he, buf, _, h2, h3⟩
    · rw [h] at hrun
      simp [Batch.init] at hrun
    · exact ⟨e, he, by rw [hname, h3], h2⟩
  · rw [hname]
    exact inv2 t ht helt
  · intro hf ht2 hq qf mf qt mt hsf hst
    have hle : strcmp f t.d_name ≤ 0 := by
      rw [hname]
      exact inv2 t ht helt
    have hord := at_form_order f t.d_name hf ht2 hq hle
    rw [sscanf_at_form f hf] at hsf
    rw [sscanf_at_form t.d_name ht2] at hst
    simp only [Option.some.injEq, Prod.mk.injEq] at hsf hst
    rw [← hsf.2, ← hst.2]
    exact hord

/-- The batch job within one queue, at a concrete input: of `B00000002.001` and `B00000001.002`, the job
passed to `run_file` is `B00000001.002`, and its minute 1 is at most the minute 2 of the
other. -/
theorem batch_choice_example :
    (calm 1000 two_batch_jobs (Dbl.fin 1)).spool = some two_batch_jobs ∧
    (∀ e ∈ two_batch_jobs, batch_eligible 1000 e = true → e.d_name.length < BATCH_NAME_SIZE) ∧
    Op.run_file "B00000001.002".toList 1000 100
      ∈ main [] (calm 1000 two_batch_jobs (Dbl.fin 1)) ∧
    isupper (queue_of "B00000001.002".toList) = true ∧
    (1 : Nat) ≤ 2 :=
  ⟨rfl, by decide, by decide, by decide,
    ((batch_choice_minimal [] (calm 1000 two_batch_jobs (Dbl.fin 1)) two_batch_jobs
      "B00000001.002".toList 1000 100 rfl (by decide) (by decide) (by decide)).2
        (file "B00000002.001" 0o700) (by decide) (by decide)).2
        (by decide) (by decide) (by decide) 'B' 1 'B' 2 (by decide) (by decide)⟩


/-! ## The job body: claims C2 and C3 -/

theorem perr_calls (debug : Nat) (msg : String) : (perr debug msg).filterMap call_of = [] := by
  unfold perr
  split_ifs <;> rfl

theorem perr_call_of (debug : Nat) (msg : String) (op : Op) (h : op ∈ perr debug msg) :
    call_of op = none := by
  unfold perr at h
  split_ifs at h <;> simp at h <;> rcases h with h | h <;> subst h <;> rfl

theorem perr_after (debug : Nat) (msg : String) (c : Call) (ok : Bool) :
    (perr debug msg).dropWhile (fun op => op != Op.call c ok) = [] := by
  unfold perr
  split_ifs <;> simp [List.dropWhile_cons]

theorem perr_before (debug : Nat) (msg : String) (c : Call) (ok : Bool) :
    (perr debug msg).takeWhile (fun op => op != Op.call c ok) = perr debug msg := by
  unfold perr
  split_ifs <;> simp [List.takeWhile_cons]

theorem perr_mem_call (debug : Nat) (msg : String) (c : Call) (ok : Bool) :
    Op.call c ok ∉ perr debug msg := by
  unfold perr
  split_ifs <;> simp

theorem perr_last (debug : Nat) (msg : String) :
    (perr debug msg).getLast? = some (Op.exit EXIT_FAILURE) := by
  unfold perr
  split_ifs <;> rfl

/-- C2: in the job body, the calls made after `PRIV_START` are, in this order and as far
as the process gets, `nice`, `chdir` to the home directory, `initgroups`, `setgid`,
`setuid`, `execle` of `/bin/sh`, and no call that changes identity or priority is made
before `PRIV_START`; `setuid` is attempted only after `initgroups` and `setgid` have
both succeeded; and after a successful `setuid` the only call is the `execle` of the
command interpreter, followed by nothing if it succeeds and by the error report and
`exit` of `perr` if it fails. -/
theorem C2_drop_order (env : Env) (debug : Nat) (filename : List Char) (pentry : Passwd)
    (uid gid : Nat) :
    (∃ k, (ops_after (Op.call Call.priv_start true)
        (job_body env debug filename pentry uid gid)).filterMap call_of
      = (drop_calls filename pentry uid gid).take k) ∧
    (∀ op ∈ ops_before (Op.call Call.priv_start true)
        (job_body env debug filename pentry uid gid),
      ∀ c, call_of op = some c → is_identity_call c = false ∧ c ≠ Call.execle_sh) ∧
    (∀ ok, Op.call (Call.setuid uid) ok ∈ job_body env debug filename pentry uid gid →
      Op.call (Call.initgroups pentry.pw_name pentry.pw_gid) true
        ∈ ops_before (Op.call (Call.setuid uid) ok)
            (job_body env debug filename pentry uid gid) ∧
      Op.call (Call.setgid gid) true
        ∈ ops_before (Op.call (Call.setuid uid) ok)
            (job_body env debug filename pentry uid gid)) ∧
    (Op.call (Call.setuid uid) true ∈ job_body env debug filename pentry uid gid →
      ops_after (Op.call (Call.setuid uid) true) (job_body env debug filename pentry uid gid)
          = [Op.call Call.execle_sh true] ∨
      ops_after (Op.call (Call.setuid uid) true) (job_body env debug filename pentry uid gid)
          = Op.call Call.execle_sh false :: perr debug "Exec failed") := by
  obtain ⟨getpwuid, getpwnam, script, dup_fileno_ok, fcntl_getfd_ok, chdir_spool_ok,
    open_creat_ok, size0, fork_ok, lseek_ok, dup_stdin_ok, dup_stdout_ok, dup_stderr_ok,
    chdir_jobs_ok, nice_ok, chdir_home_ok, initgroups_ok, setgid_ok, setuid_ok, execle_ok,
    size1, open_rdonly_ok, execl_ok⟩ := env
  cases lseek_ok
  · refine ⟨⟨0, ?_⟩, ?_, ?_, ?_⟩
    · simp [job_body, ops_after, ops_before, List.dropWhile_cons, List.takeWhile_cons,
        perr_after, perr_before, perr_calls, perr_mem_call, call_of, drop_calls, queue_of,
        is_identity_call]
    · simp [job_body, ops_after, ops_before, List.dropWhile_cons, List.takeWhile_cons,
        perr_after, perr_before, perr_calls, perr_mem_call, call_of, drop_calls, queue_of,
        is_identity_call]
      intro a ha c hc
      have h1 : call_of a = some c := hc
      rw [perr_call_of _ _ a ha] at h1
      exact absurd h1 (by simp)
    · simp [job_body, ops_after, ops_before, List.dropWhile_cons, List.takeWhile_cons,
        perr_after, perr_before, perr_calls, perr_mem_call, call_of, drop_calls, queue_of,
        is_identity_call]
    · simp [job_body, ops_after, ops_before, List.dropWhile_cons, List.takeWhile_cons,
        perr_after, perr_before, perr_calls, perr_mem_call, call_of, drop_calls, queue_of,
        is_identity_call]
  cases dup_stdin_ok
  · refine ⟨⟨0, ?_⟩, ?_, ?_, ?_⟩
    · simp [job_body, ops_after, ops_before, List.dropWhile_cons, List.takeWhile_cons,
        perr_after, perr_before, perr_calls, perr_mem_call, call_of, drop_calls, queue_of,
        is_identity_call]
    · simp [job_body, ops_after, ops_before, List.dropWhile_cons, List.takeWhile_cons,
        perr_after, perr_before, perr_calls, perr_mem_call, call_of, drop_calls, queue_of,
        is_identity_call]
      intro a ha c hc
      have h1 : call_of a = some c := hc
      rw [perr_call_of _ _ a ha] at h1
      exact absurd h1 (by simp)
    · simp [job_body, ops_after, ops_before, List.dropWhile_cons, List.takeWhile_cons,
        perr_after, perr_before, perr_calls, perr_mem_call, call_of, drop_calls, queue_of,
        is_identity_call]
    · simp [job_body, ops_after, ops_before, List.dropWhile_cons, List.takeWhile_cons,
        perr_after, perr_before, perr_calls, perr_mem_call, call_of, drop_calls, queue_of,
        is_identity_call]
  cases dup_stdout_ok
  · refine ⟨⟨0, ?_⟩, ?_, ?_, ?_⟩
    · simp [job_body, ops_after, ops_before, List.dropWhile_cons, List.takeWhile_cons,
        perr_after, perr_before, perr_calls, perr_mem_call, call_of, drop_calls, queue_of,
        is_identity_call]
    · simp [job_body, ops_after, ops_before, List.dropWhile_cons, List.takeWhile_cons,
        perr_after, perr_before, perr_calls, perr_mem_call, call_of, drop_calls, queue_of,
        is_identity_call]
      intro a ha c hc
      have h1 : call_of a = some c := hc
      rw [perr_call_of _ _ a ha] at h1
      exact absurd h1 (by simp)
    · simp [job_body, ops_after, ops_before, List.dropWhile_cons, List.takeWhile_cons,
        perr_after, perr_before, perr_calls, perr_mem_call, call_of, drop_calls, queue_of,
        is_identity_call]
    · simp [job_body, ops_after, ops_before, List.dropWhile_cons, List.takeWhile_cons,
        perr_after, perr_before, perr_calls, perr_mem_call, call_of, drop_calls, queue_of,
        is_identity_call]
  cases dup_stderr_ok
  · refine ⟨⟨0, ?_⟩, ?_, ?_, ?_⟩
    · simp [job_body, ops_after, ops_before, List.dropWhile_cons, List.takeWhile_cons,
        perr_after, perr_before, perr_calls, perr_mem_call, call_of, drop_calls, queue_of,
        is_identity_call]
    · simp [job_body, ops_after, ops_before, List.dropWhile_cons, List.takeWhile_cons,
        perr_after, perr_before, perr_calls, perr_mem_call, call_of, drop_calls, queue_of,
        is_identity_call]
      intro a ha c hc
      have h1 : call_of a = some c := hc
      rw [perr_call_of _ _ a ha] at h1
      exact absurd h1 (by simp)
    · simp [job_body, ops_after, ops_before, List.dropWhile_cons, List.takeWhile_cons,
        perr_after, perr_before, perr_calls, perr_mem_call, call_of, drop_calls, queue_of,
        is_identity_call]
    · simp [job_body, ops_after, ops_before, List.dropWhile_cons, List.takeWhile_cons,
        perr_after, perr_before, perr_calls, perr_mem_call, call_of, drop_calls, queue_of,
        is_identity_call]
  cases chdir_jobs_ok
  · refine ⟨⟨0, ?_⟩, ?_, ?_, ?_⟩
    · simp [job_body, ops_after, ops_before, List.dropWhile_cons, List.takeWhile_cons,
        perr_after, perr_before, perr_calls, perr_mem_call, call_of, drop_calls, queue_of,
        is_identity_call]
    · simp [job_body, ops_after, ops_before, List.dropWhile_cons, List.takeWhile_cons,
        perr_after, perr_before, perr_calls, perr_mem_call, call_of, drop_calls, queue_of,
        is_identity_call]
      intro a ha c hc
      have h1 : call_of a = some c := hc
      rw [perr_call_of _ _ a ha] at h1
      exact absurd h1 (by simp)
    · simp [job_body, ops_after, ops_before, List.dropWhile_cons, List.takeWhile_cons,
        perr_after, perr_before, perr_calls, perr_mem_call, call_of, drop_calls, queue_of,
        is_identity_call]
    · simp [job_body, ops_after, ops_before, List.dropWhile_cons, List.takeWhile_cons,
        perr_after, perr_before, perr_calls, perr_mem_call, call_of, drop_calls, queue_of,
        is_identity_call]
  cases initgroups_ok
  · refine ⟨⟨3, ?_⟩, ?_, ?_, ?_⟩ <;>
      simp [job_body, ops_after, ops_before, List.dropWhile_cons, List.takeWhile_cons,
        perr_after, perr_before, perr_calls, perr_mem_call, call_of, drop_calls, queue_of,
        is_identity_call]
  cases setgid_ok
  · refine ⟨⟨4, ?_⟩, ?_, ?_, ?_⟩ <;>
      simp [job_body, ops_after, ops_before, List.dropWhile_cons, List.takeWhile_cons,
        perr_after, perr_before, perr_calls, perr_mem_call, call_of, drop_calls, queue_of,
        is_identity_call]
  cases setuid_ok
  · refine ⟨⟨5, ?_⟩, ?_, ?_, ?_⟩ <;>
      simp [job_body, ops_after, ops_before, List.dropWhile_cons, List.takeWhile_cons,
        perr_after, perr_before, perr_calls, perr_mem_call, call_of, drop_calls, queue_of,
        is_identity_call]
  cases execle_ok
  · refine ⟨⟨6, ?_⟩, ?_, ?_, ?_⟩ <;>
      simp [job_body, ops_after, ops_before, List.dropWhile_cons, List.takeWhile_cons,
        perr_after, perr_before, perr_calls, perr_mem_call, call_of, drop_calls, queue_of,
        is_identity_call]
  · refine ⟨⟨6, ?_⟩, ?_, ?_, ?_⟩ <;>
      simp [job_body, ops_after, ops_before, List.dropWhile_cons, List.takeWhile_cons,
        perr_after, perr_before, perr_calls, perr_mem_call, call_of, drop_calls, queue_of,
        is_identity_call]

/-- C3, as stated, fails for the first two steps: `nice` and the `chdir` to the home
directory both fail here, and the command interpreter is exec'd all the same. -/
theorem C3_unchecked_steps :
    Op.call (Call.nice 0) false
      ∈ job_body (rough "" 0 0) 0 "a0000000a.001".toList alice 1000 100 ∧
    Op.call (Call.chdir alice.pw_dir) false
      ∈ job_body (rough "" 0 0) 0 "a0000000a.001".toList alice 1000 100 ∧
    Op.call Call.execle_sh true
      ∈ job_body (rough "" 0 0) 0 "a0000000a.001".toList alice 1000 100 ∧
    Op.exit EXIT_FAILURE ∉ job_body (rough "" 0 0) 0 "a0000000a.001".toList alice 1000 100 := by
  decide

/-- C3, amended: if `initgroups`, `setgid` or `setuid` fails, the job body ends with
`exit(EXIT_FAILURE)` and never calls `execle`; the command interpreter is exec'd exactly
when the redirection of the standard streams, the `chdir` to `ATJOB_DIR` and these three
steps all succeeded, whatever `nice` and the `chdir` to the home directory returned;
and an `execle` that fails ends the job body with `exit(EXIT_FAILURE)` as well. -/
theorem C3_fatal_steps (env : Env) (debug : Nat) (filename : List Char) (pentry : Passwd)
    (uid gid : Nat) :
    ((env.initgroups_ok = false ∨ env.setgid_ok = false ∨ env.setuid_ok = false) →
      (job_body env debug filename pentry uid gid).getLast? = some (Op.exit EXIT_FAILURE) ∧
      ∀ ok, Op.call Call.execle_sh ok ∉ job_body env debug filename pentry uid gid) ∧
    ((∃ ok, Op.call Call.execle_sh ok ∈ job_body env debug filename pentry uid gid) ↔
      (env.lseek_ok = true ∧ env.dup_stdin_ok = true ∧ env.dup_stdout_ok = true ∧
        env.dup_stderr_ok = true ∧ env.chdir_jobs_ok = true ∧ env.initgroups_ok = true ∧
        env.setgid_ok = true ∧ env.setuid_ok = true)) ∧
    (Op.call Call.execle_sh false ∈ job_body env debug filename pentry uid gid →
      (job_body env debug filename pentry uid gid).getLast? = some (Op.exit EXIT_FAILURE)) := by
  obtain ⟨getpwuid, getpwnam, script, dup_fileno_ok, fcntl_getfd_ok, chdir_spool_ok,
    open_creat_ok, size0, fork_ok, lseek_ok, dup_stdin_ok, dup_stdout_ok, dup_stderr_ok,
    chdir_jobs_ok, nice_ok, chdir_home_ok, initgroups_ok, setgid_ok, setuid_ok, execle_ok,
    size1, open_rdonly_ok, execl_ok⟩ := env
  cases lseek_ok
  · simp [job_body, perr_mem_call, perr_last, List.getLast?_cons]
  cases dup_stdin_ok
  · simp [job_body, perr_mem_call, perr_last, List.getLast?_cons]
  cases dup_stdout_ok
  · simp [job_body, perr_mem_call, perr_last, List.getLast?_cons]
  cases dup_stderr_ok
  · simp [job_body, perr_mem_call, perr_last, List.getLast?_cons]
  cases chdir_jobs_ok
  · simp [job_body, perr_mem_call, perr_last, List.getLast?_cons]
  cases initgroups_ok
  · simp [job_body, perr_mem_call, perr_last, List.getLast?_cons]
  cases setgid_ok
  · simp [job_body, perr_mem_call, perr_last, List.getLast?_cons]
  cases setuid_ok
  · simp [job_body, perr_mem_call, perr_last, List.getLast?_cons]
  cases execle_ok
  · simp [job_body, perr_mem_call, perr_last, List.getLast?_cons]
  · simp [job_body, perr_mem_call, perr_last, List.getLast?_cons]

/-- C3 amended, at a concrete input: everything succeeds except `setgid`; the job body
ends with `exit(EXIT_FAILURE)`. -/
theorem C3_fatal_steps_witness :
    (no_setgid.initgroups_ok = false ∨ no_setgid.setgid_ok = false
      ∨ no_setgid.setuid_ok = false) ∧
    (job_body no_setgid 0 "a0000000a.001".toList alice 1000 100).getLast?
      = some (Op.exit EXIT_FAILURE) ∧
    ∀ ok, Op.call Call.execle_sh ok ∉ job_body no_setgid 0 "a0000000a.001".toList alice 1000 100 :=
  ⟨by decide,
    (C3_fatal_steps no_setgid 0 "a0000000a.001".toList alice 1000 100).1 (by decide)⟩

/-! ## The notification: claim C8 -/

/-- C8, as stated, fails when the output file has shrunk: with 40 bytes before the job,
10 bytes after it and the flag unset, the mail transport is exec'd and the process does
not exit with success. -/
theorem C8_shrunk_output_is_mailed :
    (smooth "" 40 10).size1 = some 10 ∧ ¬ ((10 : Int) > 40) ∧
    Op.call (Call.execl_mail "alice".toList) true
      ∈ notify (smooth "" 40 10) 0 "a0000000a.001".toList "alice".toList 40 0 ∧
    Op.exit EXIT_SUCCESS
      ∉ notify (smooth "" 40 10) 0 "a0000000a.001".toList "alice".toList 40 0 := by
  decide

/-- C8, amended: after the job body has finished, when `stat` reports the size `after`
and the output file is reopened as standard input, `run_file` execs the mail transport
if and only if `after` differs from the size recorded before the job or the flag
`send_mail` is non-zero; otherwise no mail transport is exec'd and the process ends
with `exit(EXIT_SUCCESS)`. -/
theorem C8_mail_iff_changed (env : Env) (debug : Nat) (filename mailname : List Char)
    (size send_mail after : Int)
    (hstat : env.size1 = some after) (hopen : env.open_rdonly_ok = true) :
    ((∃ ok, Op.call (Call.execl_mail mailname) ok
        ∈ notify env debug filename mailname size send_mail) ↔
      (after ≠ size ∨ send_mail ≠ 0)) ∧
    (¬ (after ≠ size ∨ send_mail ≠ 0) →
      (notify env debug filename mailname size send_mail).getLast?
        = some (Op.exit EXIT_SUCCESS) ∧
      ∀ rcpt ok, Op.call (Call.execl_mail rcpt) ok
        ∉ notify env debug filename mailname size send_mail) := by
  unfold notify
  simp only [hstat, hopen, if_true, Option.getD_some, Option.isSome_some]
  by_cases hc : after ≠ size ∨ send_mail ≠ 0
  · simp only [hc, if_true, not_true_eq_false, false_imp_iff, and_true, iff_true]
    exact ⟨env.execl_ok, by simp⟩
  · simp only [hc, if_false, not_false_eq_true, true_imp_iff, iff_false]
    simp

/-- C8 amended, at a concrete input: 40 bytes before the job, 52 after it, flag unset;
the mail transport is exec'd for `alice`. -/
theorem C8_mail_iff_changed_witness :
    (smooth "" 40 52).size1 = some 52 ∧ (smooth "" 40 52).open_rdonly_ok = true ∧
    ∃ ok, Op.call (Call.execl_mail "alice".toList) ok
      ∈ notify (smooth "" 40 52) 0 "a0000000a.001".toList "alice".toList 40 0 :=
  ⟨rfl, rfl,
    (C8_mail_iff_changed (smooth "" 40 52) 0 "a0000000a.001".toList "alice".toList 40 0 52
      rfl rfl).1.2 (Or.inl (by decide))⟩

/-! ## The mail directive: claim C4 -/

theorem scan_8s_length (inp word rest : List Char) (h : scan_8s inp = some (word, rest)) :
    word.length ≤ 8 ∧ word ≠ [] := by
  unfold scan_8s at h
  simp only at h
  split_ifs at h with hw
  simp only [Option.some.injEq, Prod.mk.injEq] at h
  rw [← h.1]
  exact ⟨by rw [List.length_take]; omega, hw⟩

/-- The recipient `fscanf` reads from a header has between one and eight characters. -/
theorem fscanf_header_length (text r : List Char) (flag : Int)
    (h : fscanf_header text = some (r, flag)) : r.length ≤ 8 ∧ r ≠ [] := by
  unfold fscanf_header at h
  split at h
  · simp at h
  · split at h
    · simp at h
    · split at h
      · simp at h
      · split at h
        · simp at h
        · split at h
          · simp at h
          · rename_i mailbuf r5 hs
            split at h
            · simp at h
            · simp only [Option.some.injEq, Prod.mk.injEq] at h
              rw [← h.1]
              exact scan_8s_length _ _ _ hs

theorem directive_head_chars :
    "#! /bin/sh\n# mail ".toList = ['#', '!', ' ', '/', 'b', 'i', 'n', '/', 's', 'h', Char.ofNat 10, '#', ' ', 'm', 'a', 'i', 'l', ' '] := by
  decide

theorem skip_ws_word (r rest : List Char) (hr : r ≠ []) (hns : ∀ c ∈ r, isspace c = false) :
    skip_ws (r ++ rest) = r ++ rest := by
  cases r with
  | nil => exact absurd rfl hr
  | cons c cs =>
    unfold skip_ws
    rw [List.cons_append, List.dropWhile_cons]
    simp [hns c (List.mem_cons_self _ _)]

theorem takeWhile_word (r rest : List Char) (hns : ∀ c ∈ r, isspace c = false) :
    (r ++ Char.ofNat 32 :: rest).takeWhile (fun c => !isspace c) = r := by
  induction r with
  | nil => simp [List.takeWhile_cons]; decide
  | cons c cs ih =>
    rw [List.cons_append, List.takeWhile_cons]
    simp only [hns c (List.mem_cons_self _ _), Bool.not_false, if_true]
    rw [ih (fun x hx => hns x (List.mem_cons_of_mem _ hx))]

theorem scan_8s_word (r rest : List Char) (hr : r ≠ []) (hlen : r.length ≤ 8)
    (hns : ∀ c ∈ r, isspace c = false) :
    scan_8s (r ++ Char.ofNat 32 :: rest) = some (r, Char.ofNat 32 :: rest) := by
  unfold scan_8s
  simp only
  rw [skip_ws_word r _ hr hns, takeWhile_word r rest hns, List.take_of_length_le hlen]
  simp [hr]

theorem scan_d_flag (rest : List Char) (flag : Nat) (hflag : flag ≤ 1) :
    scan_d (Char.ofNat 32 :: Char.ofNat (48 + flag) :: Char.ofNat 10 :: rest)
      = some (flag : Int) := by
  have e1 : isspace (Char.ofNat 32) = true := by decide
  have e2 : isspace (Char.ofNat 48) = false := by decide
  have e3 : isspace (Char.ofNat 49) = false := by decide
  have e4 : (decval (Char.ofNat 48)).isSome = true := by decide
  have e5 : (decval (Char.ofNat 49)).isSome = true := by decide
  have e6 : (decval (Char.ofNat 10)).isSome = false := by decide
  have e7 : (Char.ofNat 48).toNat = 48 := by decide
  have e8 : (Char.ofNat 49).toNat = 49 := by decide
  have e9 : decval (Char.ofNat 48) = some 0 := by decide
  have e10 : decval (Char.ofNat 49) = some 1 := by decide
  have hcase : flag = 0 ∨ flag = 1 := by omega
  rcases hcase with h | h <;> subst h <;>
    simp [scan_d, skip_ws, List.dropWhile_cons, List.takeWhile_cons, e1, e2, e3, e4, e5, e6,
      e7, e8, e9, e10, decnum, store_int]

/-- A header with the directive `# mail r flag`, where `r` has between one and eight
characters, none of them white space, and `flag` is `0` or `1`: `fscanf` reads `r` and
the flag. -/
theorem fscanf_header_directive (r rest : List Char) (flag : Nat) (hr : r ≠ [])
    (hlen : r.length ≤ 8) (hns : ∀ c ∈ r, isspace c = false) (hflag : flag ≤ 1) :
    fscanf_header ("#! /bin/sh\n# mail ".toList ++ r
      ++ Char.ofNat 32 :: Char.ofNat (48 + flag) :: Char.ofNat 10 :: rest)
      = some (r, (flag : Int)) := by
  rw [directive_head_chars]
  have hs := scan_8s_word r (Char.ofNat (48 + flag) :: Char.ofNat 10 :: rest) hr hlen hns
  have hw := skip_ws_word r (Char.ofNat 32 :: Char.ofNat (48 + flag) :: Char.ofNat 10 :: rest)
    hr hns
  have hd := scan_d_flag rest flag hflag
  have e0 : isspace (Char.ofNat 32) = true := by decide
  have e1 : isspace ' ' = true := by decide
  have e2 : isspace '/' = false := by decide
  have e3 : isspace (Char.ofNat 10) = true := by decide
  have e4 : isspace '#' = false := by decide
  have e5 : isspace 'm' = false := by decide
  have e6 : isspace (Char.ofNat (48 + flag)) = false := by
    have hcase : flag = 0 ∨ flag = 1 := by omega
    rcases hcase with h | h <;> subst h <;> decide
  have hd2 : scan_d (Char.ofNat (48 + flag) :: Char.ofNat 10 :: rest) = some (flag : Int) := by
    unfold scan_d at hd ⊢
    have hidem : skip_ws (Char.ofNat 32 :: Char.ofNat (48 + flag) :: Char.ofNat 10 :: rest)
        = skip_ws (Char.ofNat (48 + flag) :: Char.ofNat 10 :: rest) := by
      unfold skip_ws
      rw [List.dropWhile_cons]
      simp [e0]
    rw [hidem] at hd
    exact hd
  unfold skip_ws at hw
  unfold fscanf_header
  simp only [String.toList, List.cons_append, List.nil_append, match_lit, if_true, skip_ws,
    List.dropWhile_cons, e1, e2, e3, e4, e5, e6, Bool.false_eq_true, if_false,
    List.append_assoc, List.append_eq, hw, hs, hd2]

/-- A NUL byte in `mailbuf` ends the recipient name: of the bytes `al`, NUL, `ce` only
`al` is looked up. -/
theorem c_str_stops_at_nul :
    c_str ['a', 'l', Char.ofNat 0, 'c', 'e'] = ['a', 'l'] := by
  decide

/-- C4, as stated, fails for a recipient name of more than eight characters: `%8s` reads
`nonexist` from the directive `# mail nonexistent 0`, `%d` then finds no number, `fscanf`
returns 1 and the directive is dropped.  No user `nonexistent` exists, yet the job is
not aborted: the second `fork` takes place, the command interpreter is exec'd, and the
mail transport is exec'd for the owner `alice`. -/
theorem C4_long_recipient_not_checked :
    by_name "nonexistent".toList = none ∧
    (run_file_child (smooth "#! /bin/sh\n# mail nonexistent 0\n" 40 52) 0
      "a0000000a.001".toList 1000 100).body
      = some (job_body (smooth "#! /bin/sh\n# mail nonexistent 0\n" 40 52) 0
          "a0000000a.001".toList alice 1000 100) ∧
    Op.call Call.execle_sh true
      ∈ job_body (smooth "#! /bin/sh\n# mail nonexistent 0\n" 40 52) 0
          "a0000000a.001".toList alice 1000 100 ∧
    Op.call Call.fork true
      ∈ (run_file_child (smooth "#! /bin/sh\n# mail nonexistent 0\n" 40 52) 0
          "a0000000a.001".toList 1000 100).trace ∧
    Op.call (Call.execl_mail "alice".toList) true
      ∈ (run_file_child (smooth "#! /bin/sh\n# mail nonexistent 0\n" 40 52) 0
          "a0000000a.001".toList 1000 100).trace := by
  decide

/-- C4, amended: when `fscanf` reads a mail directive from the header of the job file,
with `r` the recipient it read, that is the string in `mailbuf`, and `r` is not in the
user database or has a uid other than that of the job file, the child of `run_file`
ends with `exit(EXIT_FAILURE)` before the second `fork`: no job body is created, neither
the command interpreter nor the mail transport is exec'd.  The recipient read has at
most eight characters; and for a header `# mail r flag` whose `r` has one to eight
characters, none of them white space or NUL, and whose flag is `0` or `1`, it is `r`
itself. -/
theorem C4_recipient_checked (env : Env) (debug : Nat) (filename : List Char) (uid gid : Nat)
    (text mailbuf : List Char) (flag : Int)
    (hscript : env.script = some text) (hhdr : fscanf_header text = some (mailbuf, flag))
    (hbad : env.getpwnam (c_str mailbuf) = none ∨
      ∃ pw, env.getpwnam (c_str mailbuf) = some pw ∧ pw.pw_uid ≠ uid) :
    (run_file_child env debug filename uid gid).body = none ∧
    (run_file_child env debug filename uid gid).trace.getLast? = some (Op.exit EXIT_FAILURE) ∧
    (∀ ok, Op.call Call.fork ok ∉ (run_file_child env debug filename uid gid).trace) ∧
    (∀ ok, Op.call Call.execle_sh ok ∉ (run_file_child env debug filename uid gid).trace) ∧
    (∀ rcpt ok, Op.call (Call.execl_mail rcpt) ok
      ∉ (run_file_child env debug filename uid gid).trace) ∧
    (c_str mailbuf).length ≤ 8 ∧
    (∀ r rest fl, r ≠ [] → r.length ≤ 8 →
      (∀ c ∈ r, isspace c = false ∧ c.toNat ≠ 0) → fl ≤ 1 →
      text = "#! /bin/sh\n# mail ".toList ++ r
        ++ Char.ofNat 32 :: Char.ofNat (48 + fl) :: Char.ofNat 10 :: rest →
      c_str mailbuf = r ∧ flag = (fl : Int)) := by
  have hrun : (run_file_child env debug filename uid gid).body = none ∧
      (run_file_child env debug filename uid gid).trace.getLast?
        = some (Op.exit EXIT_FAILURE) ∧
      (∀ ok, Op.call Call.fork ok ∉ (run_file_child env debug filename uid gid).trace) ∧
      (∀ ok, Op.call Call.execle_sh ok ∉ (run_file_child env debug filename uid gid).trace) ∧
      (∀ rcpt ok, Op.call (Call.execl_mail rcpt) ok
        ∉ (run_file_child env debug filename uid gid).trace) := by
    unfold run_file_child
    cases hu : env.getpwuid uid with
    | none => simp
    | some pentry =>
      simp only [hscript]
      cases env.dup_fileno_ok
      · simp [perr_mem_call, perr_last, List.getLast?_cons]
      cases env.fcntl_getfd_ok
      · simp [perr_mem_call, perr_last, List.getLast?_cons]
      unfold resolve_and_run
      simp only [hhdr, if_true]
      rcases hbad with hn | ⟨pw, hpw, hne⟩
      · simp [hn, List.getLast?_cons]
      · simp [hpw, hne, List.getLast?_cons]
  obtain ⟨h1, h2, h3, h4, h5⟩ := hrun
  refine ⟨h1, h2, h3, h4, h5, ?_, ?_⟩
  · exact le_trans (List.takeWhile_sublist _).length_le (fscanf_header_length text mailbuf flag hhdr).1
  · intro r rest fl hr hlen hchars hfl htext
    have hd := fscanf_header_directive r rest fl hr hlen (fun c hc => (hchars c hc).1) hfl
    rw [← htext, hhdr] at hd
    simp only [Option.some.injEq, Prod.mk.injEq] at hd
    refine ⟨?_, hd.2⟩
    rw [hd.1]
    unfold c_str
    rw [List.takeWhile_eq_self_iff]
    intro c hc
    simpa using (hchars c hc).2

/-- C4 amended, at a concrete input: the directive names `bob`, who is not in the user
database; the job of `alice` is aborted before the second `fork`. -/
theorem C4_recipient_checked_witness :
    (smooth "#! /bin/sh\n# mail bob 0\n" 40 52).script
      = some "#! /bin/sh\n# mail bob 0\n".toList ∧
    fscanf_header "#! /bin/sh\n# mail bob 0\n".toList = some ("bob".toList, 0) ∧
    (smooth "#! /bin/sh\n# mail bob 0\n" 40 52).getpwnam (c_str "bob".toList) = none ∧
    (run_file_child (smooth "#! /bin/sh\n# mail bob 0\n" 40 52) 0
      "a0000000a.001".toList 1000 100).body = none ∧
    (run_file_child (smooth "#! /bin/sh\n# mail bob 0\n" 40 52) 0
      "a0000000a.001".toList 1000 100).trace.getLast? = some (Op.exit EXIT_FAILURE) :=
  ⟨rfl, by decide, by decide,
    (C4_recipient_checked (smooth "#! /bin/sh\n# mail bob 0\n" 40 52) 0
      "a0000000a.001".toList 1000 100 "#! /bin/sh\n# mail bob 0\n".toList "bob".toList 0
      rfl (by decide) (Or.inl (by decide))).1,
    (C4_recipient_checked (smooth "#! /bin/sh\n# mail bob 0\n" 40 52) 0
      "a0000000a.001".toList 1000 100 "#! /bin/sh\n# mail bob 0\n".toList "bob".toList 0
      rfl (by decide) (Or.inl (by decide))).2.1⟩

/-- C2, at a concrete input: when every call succeeds, `setuid` is attempted and what
follows it is the `execle` alone. -/
theorem C2_drop_order_witness :
    Op.call (Call.setuid 1000) true
      ∈ job_body (smooth "" 0 0) 0 "a0000000a.001".toList alice 1000 100 ∧
    (ops_after (Op.call Call.priv_start true)
        (job_body (smooth "" 0 0) 0 "a0000000a.001".toList alice 1000 100)).filterMap call_of
      = drop_calls "a0000000a.001".toList alice 1000 100 ∧
    (ops_after (Op.call (Call.setuid 1000) true)
        (job_body (smooth "" 0 0) 0 "a0000000a.001".toList alice 1000 100)
        = [Op.call Call.execle_sh true] ∨
      ops_after (Op.call (Call.setuid 1000) true)
        (job_body (smooth "" 0 0) 0 "a0000000a.001".toList alice 1000 100)
        = Op.call Call.execle_sh false :: perr 0 "Exec failed") :=
  ⟨by decide, by decide,
    (C2_drop_order (smooth "" 0 0) 0 "a0000000a.001".toList alice 1000 100).2.2.2 (by decide)⟩

end Atrun
